import Mathlib

/-!
Shallow embedding of `src/Release/PythonFunctions/ReadFASTbinary.py`.

Modelling conventions:

* Machine floating-point values are modelled by `FVal`: either the
  not-a-number sentinel `FVal.nan` or an exact rational `FVal.num q`.
  Arithmetic propagates `nan`; division by zero yields `nan` (no claim
  exercises a genuine division by a zero scale, so the inf/nan
  distinction of IEEE arithmetic never matters here).
* The binary file is modelled at scalar-token granularity: a `TokStream` is
  the list of scalar values stored in the file, in file order.  Each
  Python `fread(fid, n, t)` call consumes `n` tokens; `struct.unpack`
  raises `struct.error` when the underlying `fid.read` returned fewer
  bytes than requested, which the model renders as `Err.structError`
  carrying the requested and available counts (in elements).  The byte
  width of each read is kept as an (otherwise inert) argument for
  fidelity with the source table of formats.
* Python `int(a/b)` on nonnegative ints equals `a / b` (Nat division)
  for all magnitudes arising here, and raises `ZeroDivisionError` when
  `b = 0` (also for `a = 0`); the model renders that as
  `Err.zeroDivision`.
* The `except:` handler in `freadRowOrderTableBuffered` catches any
  exception and then executes
  `raise Exception(msg % (nIntRead, n, filename))` where `msg` has two
  `%d` fields but three arguments are supplied; in Python the `%`
  operator itself raises `TypeError` (verified: "not all arguments
  converted during string formatting"), so the user-visible failure is
  a `TypeError` carrying no counts.  The model renders it as
  `Err.typeError`.
* NumPy shape errors (broadcasting two incompatible shapes, or
  concatenating arrays with mismatched row counts) are rendered as
  `Err.broadcastError`.
* Strings are lists of character codes.  Python `str.strip()` removes
  exactly the codes in {9,10,11,12,13,28,29,30,31,32,133,160} from both
  ends (verified against CPython for all byte codes), and `s[1:-1]`
  equals dropping one leading character and then one trailing character
  (also for strings of length below 2).
* The dictionary `info` returned by the source carries a `name` field
  derived from the file path only; it does not depend on the file
  contents and is byte-identical across the two read modes, so it is
  omitted from the modelled `Info`.
-/

/-- A stored scalar: either the IEEE not-a-number sentinel or an exact
rational value. -/
inductive FVal : Type
  | nan : FVal
  | num : ℚ → FVal
deriving DecidableEq, Repr

namespace FVal

def isNan : FVal → Bool
  | nan => true
  | num _ => false

def add : FVal → FVal → FVal
  | num a, num b => num (a + b)
  | _, _ => nan

def sub : FVal → FVal → FVal
  | num a, num b => num (a - b)
  | _, _ => nan

def mul : FVal → FVal → FVal
  | num a, num b => num (a * b)
  | _, _ => nan

def div : FVal → FVal → FVal
  | num a, num b => if b = 0 then nan else num (a / b)
  | _, _ => nan

/-- Reading an integer field out of a token (the value stored in the
file at a place where the reader expects a count).  On the files built
by `encode` these tokens are always natural numbers. -/
def toZ : FVal → ℤ
  | nan => 0
  | num q => ⌊q⌋

def toN (v : FVal) : ℕ := v.toZ.toNat

end FVal

instance : Add FVal := ⟨FVal.add⟩
instance : Sub FVal := ⟨FVal.sub⟩
instance : Mul FVal := ⟨FVal.mul⟩
instance : Div FVal := ⟨FVal.div⟩

/-- Failure modes of the reader, one constructor per distinct Python
exception site. -/
inductive Err : Type
  | structError (requested available : ℕ)  -- struct.error from unpack (counts in elements)
  | unsupported (fileID : FVal)            -- line 74: FileID not supported
  | typeError                              -- line 57: the % formatting itself raises TypeError
  | truncated (got expected : ℕ)           -- lines 122 and 139 (unreachable; kept for fidelity)
  | zeroDivision                           -- lines 37 and 41: int(n/0)
  | broadcastError                         -- NumPy shape mismatch (broadcast or concatenate)
  | fuelOut                                -- modelling artifact: structural bound of bufLoop
deriving DecidableEq, Repr

abbrev TokStream := List FVal

/-- Table of floating values: the 2-D numpy array `data`, row major. -/
abbrev Table := List (List FVal)

/-- The reader state monad: consume a prefix of the token stream or
fail. -/
def ReadM (α : Type) : Type := TokStream → Except Err (α × TokStream)

instance : Monad ReadM where
  pure a := fun s => .ok (a, s)
  bind m f := fun s =>
    match m s with
    | .error e => .error e
    | .ok (a, t) => f a t

def throwE {α : Type} (e : Err) : ReadM α := fun _ => .error e

def liftE {α : Type} (e : Except Err α) : ReadM α := fun s =>
  match e with
  | .error er => .error er
  | .ok a => .ok (a, s)

/-- `fread(fid, n, type)`: read `n` scalars of byte width `w`.
`struct.unpack` demands exactly the requested byte count, so a short
stream is an error, never a short result. -/
def fread (n _w : ℕ) : ReadM (List FVal) := fun s =>
  if s.length < n then .error (.structError n s.length)
  else .ok (s.take n, s.drop n)

/-- Character codes removed by Python `str.strip()` (all byte codes `c`
with `chr(c).strip() == ''`). -/
def isPySpace (c : ℕ) : Bool :=
  c = 9 ∨ c = 10 ∨ c = 11 ∨ c = 12 ∨ c = 13 ∨ c = 28 ∨ c = 29 ∨ c = 30 ∨
    c = 31 ∨ c = 32 ∨ c = 133 ∨ c = 160

/-- Python `s.strip()` on a list of character codes. -/
def pyStrip (s : List ℕ) : List ℕ :=
  ((s.dropWhile isPySpace).reverse.dropWhile isPySpace).reverse

/-- Python `s[1:-1]` (drop one leading and one trailing character;
empty for length below 2). -/
def dropEnds (s : List ℕ) : List ℕ := ((s.drop 1).dropLast)

/-- The per-channel scale/offset container: a flat tuple of
`channel_count` floats (formats 1, 2, 4, from `fread`), or a
`channel_count` by 1 column matrix (format 3, from
`np.ones((NumOutChans, 1))` / `np.zeros((NumOutChans, 1))`). -/
inductive ScaleArr : Type
  | flat : List FVal → ScaleArr
  | col : List FVal → ScaleArr
deriving DecidableEq, Repr

namespace ScaleArr

/-- `ColScl[iCol]` as used by the buffered scaling loop: for a tuple
this is the scalar entry; for the column matrix it is the one-element
row, which NumPy then treats as the same scalar in `isnan`, `-`, `/`. -/
def atIdx : ScaleArr → ℕ → FVal
  | flat v, i => v.getD i FVal.nan
  | col v, i => v.getD i FVal.nan

end ScaleArr

/-- Write `vals` into a row starting at column `nOff`
(`data[r, nOff:nOff+nCols] = bufferRow`). -/
def writeRow (row : List FVal) (nOff : ℕ) (vals : List FVal) : List FVal :=
  row.take nOff ++ vals ++ row.drop (nOff + vals.length)

/-- Write `rows` consecutive rows of width `nCols` taken from `buf`
into `data` starting at row `start`
(`data[start:start+rows, nOff:nOff+nCols] = Buffer.reshape(-1, nCols)`). -/
def writeRows (nCols nOff : ℕ) : ℕ → ℕ → Table → TokStream → Table
  | 0, _, data, _ => data
  | rows + 1, start, data, buf =>
      writeRows nCols nOff rows (start + 1)
        (data.set start (writeRow (data.getD start []) nOff (buf.take nCols)))
        (buf.drop nCols)

/-- The `while nIntRead < n` loop of `freadRowOrderTableBuffered`
(lines 45-57).  `fuel` is a structural-recursion bound; the caller
passes `n + 1`, which `bufLoop_spec` proves sufficient whenever
`0 < BufferSize` (each iteration then reads at least one value).  All
exceptions raised inside the loop body (short read, reshape mismatch,
slice-assignment mismatch) are caught by the bare `except:` whose own
re-raise at line 57 fails with `TypeError`.  The fuel-out branch is a
modelling artifact and is unreachable at the call site (the supplied
fuel exceeds the iteration count whenever `0 < BufferSize`, since every
iteration consumes at least one value). -/
def bufLoop (n nCols BufferSize nOff : ℕ) :
    ℕ → ℕ → ℕ → Table → TokStream → Except Err (Table × TokStream)
  | 0, _, _, _, _ => .error .fuelOut
  | fuel + 1, nIntRead, nLinesRead, data, s =>
      if nIntRead < n then
        let nIntToRead := min (n - nIntRead) BufferSize
        let nLinesToRead := nIntToRead / nCols
        if s.length < nIntToRead then .error .typeError
        else if ¬ nIntToRead % nCols = 0 then .error .typeError
        else if data.length < nLinesRead + nLinesToRead then .error .typeError
        else
          bufLoop n nCols BufferSize nOff fuel (nIntRead + nIntToRead)
            (nLinesRead + nLinesToRead)
            (writeRows nCols nOff nLinesToRead nLinesRead data (s.take nIntToRead))
            (s.drop nIntToRead)
      else .ok (data, s)

/-- `freadRowOrderTableBuffered(fid, n, type_in, nCols, nOff)`
(lines 22-58).  `int(n/nCols)` at line 37 and `nBuffer = int(n/BufferSize)`
at line 41 raise `ZeroDivisionError` when the divisor is zero (the
latter happens exactly when `nCols > 4096*40`, making
`nLinesPerBuffer = 0`); both sit outside the `try`. -/
def freadRowOrderTableBuffered (n _w nCols nOff : ℕ) : ReadM Table := fun s =>
  if nCols = 0 then .error .zeroDivision
  else
    let nLines := n / nCols
    let nLinesPerBuffer := 163840 / nCols
    let BufferSize := nCols * nLinesPerBuffer
    if BufferSize = 0 then .error .zeroDivision
    else
      match bufLoop n nCols BufferSize nOff (n + 1) 0 0
          (List.replicate nLines (List.replicate (nCols + nOff) (FVal.num 0))) s with
      | .error e => .error e
      | .ok (data, t) => .ok (data, t)

/-- `np.array(PackedData).reshape(NT, NumOutChans)`; the element count
always matches `NT * NumOutChans` at the call site. -/
def reshape (nRows nCols : ℕ) (l : TokStream) : Table :=
  (List.range nRows).map fun i =>
    (List.range nCols).map fun j => l.getD (i * nCols + j) (FVal.num 0)

/-- NumPy elementwise op of a `(R, C)` array against a flat `(L,)`
array.  At both call sites `L = C` exactly (the tuples come from
`fread` of `NumOutChans` values), so only the matching case is
reachable; a mismatch is a broadcast `ValueError`. -/
def bcastFlat (op : FVal → FVal → FVal) (data : Table) (v : List FVal) :
    Except Err Table :=
  if data.all fun r => r.length = v.length then
    .ok (data.map fun r => List.zipWith op r v)
  else .error .broadcastError

/-- NumPy elementwise op of a `(R, C)` array against an `(L, 1)` column
matrix.  Axis 1 always broadcasts (1 against C); axis 0 requires
`R = L`, or `R = 1` (the row is stretched to `L` copies), or `L = 1`;
anything else is a broadcast `ValueError`. -/
def bcastCol (op : FVal → FVal → FVal) (data : Table) (v : List FVal) :
    Except Err Table :=
  if data.length = v.length then
    .ok ((List.range data.length).map fun i =>
      (data.getD i []).map fun x => op x (v.getD i FVal.nan))
  else if data.length = 1 then
    .ok ((List.range v.length).map fun i =>
      (data.getD 0 []).map fun x => op x (v.getD i FVal.nan))
  else if v.length = 1 then
    .ok (data.map fun r => r.map fun x => op x (v.getD 0 FVal.nan))
  else .error .broadcastError

/-- `(data - ColOff)` and `... / ColScl` of the unbuffered branch
(line 162), dispatching on the shape of the scale/offset container. -/
def bcastArr (op : FVal → FVal → FVal) (data : Table) : ScaleArr → Except Err Table
  | .flat v => bcastFlat op data v
  | .col v => bcastCol op data v

/-- `np.concatenate([time.reshape(NT, 1), data], 1)` (line 163):
requires equal row counts, else `ValueError`. -/
def concatTime (time : List FVal) (data : Table) : Except Err Table :=
  if data.length = time.length then .ok (List.zipWith (fun t r => t :: r) time data)
  else .error .broadcastError

/-- The buffered scaling loop (lines 153-157): for each channel, either
zero the column (both scale and offset are NaN) or dequantize it in
place. -/
def scaleColumns (data : Table) (colScl colOff : ScaleArr) (numOutChans : ℕ) :
    Table :=
  (List.range numOutChans).foldl
    (fun d iCol =>
      d.map fun row =>
        row.set (iCol + 1)
          (if (colScl.atIdx iCol).isNan && (colOff.atIdx iCol).isNan then FVal.num 0
           else (row.getD (iCol + 1) (FVal.num 0) - colOff.atIdx iCol) / colScl.atIdx iCol))
    data

/-- `data[:, 0] = time` (line 159); the lengths agree at the call site. -/
def setTimeCol (data : Table) (time : List FVal) : Table :=
  List.zipWith (fun r t => r.set 0 t) data time

/-- One of the two name/unit loops (lines 102-110): read `count`
fixed-width byte strings of width `len`, decode as character codes and
post-process each (strip for names, strip plus `[1:-1]` for units). -/
def readStrings (len : ℕ) (post : List ℕ → List ℕ) : ℕ → ReadM (List (List ℕ))
  | 0 => pure []
  | count + 1 => do
      let bs ← fread len 1
      let rest ← readStrings len post count
      pure (post (bs.map FVal.toN) :: rest)

/-- Everything the header parse (lines 71-110) produces. -/
structure Header : Type where
  fileID : FVal
  lenName : ℕ
  numOutChans : ℕ
  nt : ℕ
  timeA : FVal  -- TimeScl (format 1) or TimeOut1 (others): first float64
  timeB : FVal  -- TimeOff (format 1) or TimeIncr (others): second float64
  colScl : ScaleArr
  colOff : ScaleArr
  descStr : List ℕ
  chanName : List (List ℕ)
  chanUnit : List (List ℕ)
deriving DecidableEq, Repr

/-- The metadata dictionary `info` (lines 165-169), without the
path-derived `name` entry (see the module docstring). -/
structure Info : Type where
  description : List ℕ
  fileID : FVal
  attribute_names : List (List ℕ)
  attribute_units : List (List ℕ)
deriving DecidableEq, Repr

def infoOf (h : Header) : Info :=
  ⟨h.descStr, h.fileID, h.chanName, h.chanUnit⟩

/-- Header parsing, lines 71-110 of the source, in file order:
format tag (with the unsupported-format check before anything else is
read), optional name width (format 4), channel and step counts, the two
time floats, scale/offset arrays (synthesized for format 3, read
otherwise), description, channel names, channel units. -/
def readHeader : ReadM Header := do
  let l0 ← fread 1 2
  let fileID := l0.getD 0 FVal.nan
  if fileID = FVal.num 1 ∨ fileID = FVal.num 2 ∨ fileID = FVal.num 3 ∨
      fileID = FVal.num 4 then do
    let lenName ← if fileID = FVal.num 4 then do
        let l1 ← fread 1 2
        pure (l1.getD 0 FVal.nan).toN
      else pure 10
    let l2 ← fread 1 4
    let numOutChans := (l2.getD 0 FVal.nan).toN
    let l3 ← fread 1 4
    let nt := (l3.getD 0 FVal.nan).toN
    let l4 ← fread 1 8
    let l5 ← fread 1 8
    let scls ← if fileID = FVal.num 3 then
        pure (ScaleArr.col (List.replicate numOutChans (FVal.num 1)),
              ScaleArr.col (List.replicate numOutChans (FVal.num 0)))
      else do
        let s ← fread numOutChans 4
        let o ← fread numOutChans 4
        pure (ScaleArr.flat s, ScaleArr.flat o)
    let l6 ← fread 1 4
    let lenDesc := (l6.getD 0 FVal.nan).toN
    let db ← fread lenDesc 1
    let names ← readStrings lenName pyStrip (numOutChans + 1)
    let units ← readStrings lenName (fun s => dropEnds (pyStrip s)) (numOutChans + 1)
    pure ⟨fileID, lenName, numOutChans, nt, l4.getD 0 FVal.nan, l5.getD 0 FVal.nan,
          scls.1, scls.2, pyStrip (db.map FVal.toN), names, units⟩
  else throwE (.unsupported fileID)

/-- `ReadFASTbinary(filename, use_buffer)`, lines 66-170: header, then
packed time column (format 1 only), then the payload (buffered or not),
then time reconstruction and dequantization. -/
def ReadFASTbinary (use_buffer : Bool) : ReadM (Table × Info) := do
  let hdr ← readHeader
  let nPts := hdr.nt * hdr.numOutChans
  let packedTime ← if hdr.fileID = FVal.num 1 then do
      let pt ← fread hdr.nt 4
      if pt.length < hdr.nt then throwE (.truncated pt.length hdr.nt) else pure pt
    else pure []
  let data ← if use_buffer then
      freadRowOrderTableBuffered nPts (if hdr.fileID = FVal.num 3 then 8 else 2)
        hdr.numOutChans 1
    else do
      let packedData ← fread nPts (if hdr.fileID = FVal.num 3 then 8 else 2)
      if packedData.length < nPts then throwE (.truncated packedData.length nPts)
      else pure (reshape hdr.nt hdr.numOutChans packedData)
  let time := if hdr.fileID = FVal.num 1 then
      packedTime.map fun p => (p - hdr.timeB) / hdr.timeA
    else (List.range hdr.nt).map fun (i : ℕ) => hdr.timeA + hdr.timeB * FVal.num (i : ℚ)
  if use_buffer then
    pure (setTimeCol (scaleColumns data hdr.colScl hdr.colOff hdr.numOutChans) time,
          infoOf hdr)
  else do
    let d1 ← liftE (bcastArr FVal.sub data hdr.colOff)
    let d2 ← liftE (bcastArr FVal.div d1 hdr.colScl)
    let d3 ← liftE (concatTime time d2)
    pure (d3, infoOf hdr)

/-! ## Structured files and their encoding

A `BFile` is the content of a binary output file, field by field, in
the layout of the format table (spec section 6).  `encode` lays the
fields out as a token stream; `WF` states that the declared counts
match the field lengths, which is what "a file parseable by the
decoder" means at token granularity. -/

structure BFile : Type where
  fileID : ℕ
  lenName : ℕ               -- meaningful only when fileID = 4
  numOutChans : ℕ
  nt : ℕ
  timeA : FVal              -- TimeScl (format 1) or TimeOut1
  timeB : FVal              -- TimeOff (format 1) or TimeIncr
  colScl : List FVal        -- absent from the stream when fileID = 3
  colOff : List FVal        -- absent from the stream when fileID = 3
  descBytes : List ℕ
  chanNames : List (List ℕ) -- numOutChans + 1 entries of width lenNameEff
  chanUnits : List (List ℕ)
  packedTime : List ℚ       -- present only when fileID = 1
  payload : List FVal       -- nt * numOutChans entries, row major

/-- The name/unit field width the reader will use for this file. -/
def lenNameEff (bf : BFile) : ℕ := if bf.fileID = 4 then bf.lenName else 10

/-- Token image of one code string. -/
def encStr (s : List ℕ) : TokStream := s.map fun (b : ℕ) => FVal.num (b : ℚ)

/-- The header region of the file, as a token stream (right-nested so
that each read consumes a syntactic prefix). -/
def encodeHeader (bf : BFile) : TokStream :=
  FVal.num bf.fileID ::
    ((if bf.fileID = 4 then [FVal.num bf.lenName] else []) ++
      (FVal.num bf.numOutChans :: FVal.num bf.nt :: bf.timeA :: bf.timeB ::
        ((if bf.fileID = 3 then [] else bf.colScl ++ bf.colOff) ++
          (FVal.num bf.descBytes.length ::
            (encStr bf.descBytes ++
              ((bf.chanNames.map encStr).flatten ++ (bf.chanUnits.map encStr).flatten))))))

/-- The whole file: header, then the packed time column (format 1
only), then the payload. -/
def encode (bf : BFile) : TokStream :=
  encodeHeader bf ++
    ((if bf.fileID = 1 then bf.packedTime.map fun q => FVal.num q else []) ++ bf.payload)

/-- Well-formedness of the header region: the declared counts match the
stored header data. -/
def WFheader (bf : BFile) : Prop :=
  (bf.fileID = 1 ∨ bf.fileID = 2 ∨ bf.fileID = 3 ∨ bf.fileID = 4) ∧
    bf.colScl.length = bf.numOutChans ∧
    bf.colOff.length = bf.numOutChans ∧
    bf.chanNames.length = bf.numOutChans + 1 ∧
    (∀ s ∈ bf.chanNames, s.length = lenNameEff bf) ∧
    bf.chanUnits.length = bf.numOutChans + 1 ∧
    (∀ s ∈ bf.chanUnits, s.length = lenNameEff bf)

/-- Well-formedness of the whole file. -/
def WF (bf : BFile) : Prop :=
  WFheader bf ∧
    (bf.fileID = 1 → bf.packedTime.length = bf.nt) ∧
    bf.payload.length = bf.nt * bf.numOutChans

instance (bf : BFile) : Decidable (WFheader bf) := by
  unfold WFheader; infer_instance

instance (bf : BFile) : Decidable (WF bf) := by
  unfold WF; infer_instance

/-! ## Expected results -/

/-- The scale the reader effectively uses for channel `c`. -/
def sclAt (bf : BFile) (c : ℕ) : FVal :=
  if bf.fileID = 3 then FVal.num 1 else bf.colScl.getD c FVal.nan

/-- The offset the reader effectively uses for channel `c`. -/
def offAt (bf : BFile) (c : ℕ) : FVal :=
  if bf.fileID = 3 then FVal.num 0 else bf.colOff.getD c FVal.nan

/-- The raw stored payload value for step `i`, channel `c`. -/
def rawAt (bf : BFile) (i c : ℕ) : FVal :=
  bf.payload.getD (i * bf.numOutChans + c) FVal.nan

/-- The reconstructed time for step `i`: packed dequantization for
format 1, `start + increment * i` otherwise. -/
def timeAt (bf : BFile) (i : ℕ) : FVal :=
  if bf.fileID = 1 then (FVal.num (bf.packedTime.getD i 0) - bf.timeB) / bf.timeA
  else bf.timeA + bf.timeB * FVal.num i

/-- Buffered dequantization of entry `(i, c)`: the NaN-NaN sentinel
zeroes the channel. -/
def dequantBuf (bf : BFile) (i c : ℕ) : FVal :=
  if (sclAt bf c).isNan && (offAt bf c).isNan then FVal.num 0
  else (rawAt bf i c - offAt bf c) / sclAt bf c

/-- Unbuffered dequantization of entry `(i, c)`: the plain formula,
with no sentinel handling. -/
def dequantUnb (bf : BFile) (i c : ℕ) : FVal :=
  (rawAt bf i c - offAt bf c) / sclAt bf c

/-- The table the buffered mode produces on a well-formed file. -/
def expTableBuf (bf : BFile) : Table :=
  (List.range bf.nt).map fun i =>
    timeAt bf i :: (List.range bf.numOutChans).map fun c => dequantBuf bf i c

/-- The table the unbuffered mode produces on a well-formed file (when
it does not fail on a shape mismatch). -/
def expTableUnb (bf : BFile) : Table :=
  (List.range bf.nt).map fun i =>
    timeAt bf i :: (List.range bf.numOutChans).map fun c => dequantUnb bf i c

/-- Post-processing of one unit field: strip, then drop one character
at each end. -/
def unitPost (s : List ℕ) : List ℕ := dropEnds (pyStrip s)

/-- The metadata both modes produce on a well-formed file. -/
def expInfo (bf : BFile) : Info :=
  ⟨pyStrip bf.descBytes, FVal.num bf.fileID,
    bf.chanNames.map pyStrip, bf.chanUnits.map unitPost⟩

/-- The header value the parse of a well-formed file produces. -/
def hdrOf (bf : BFile) : Header :=
  ⟨FVal.num bf.fileID, lenNameEff bf, bf.numOutChans, bf.nt, bf.timeA, bf.timeB,
    (if bf.fileID = 3 then ScaleArr.col (List.replicate bf.numOutChans (FVal.num 1))
     else ScaleArr.flat bf.colScl),
    (if bf.fileID = 3 then ScaleArr.col (List.replicate bf.numOutChans (FVal.num 0))
     else ScaleArr.flat bf.colOff),
    pyStrip bf.descBytes, bf.chanNames.map pyStrip, bf.chanUnits.map unitPost⟩

/-- Result of running the reader on a stream: the returned pair plus
the unconsumed remainder of the stream. -/
abbrev ReadResult : Type := Except Err ((Table × Info) × TokStream)

/-- Extract the table from a read result (`[]` on failure; used only
under a success hypothesis). -/
def tableOf (r : ReadResult) : Table :=
  match r with
  | .ok p => p.1.1
  | .error _ => []

/-- Extract the metadata from a read result. -/
def infoOfR (r : ReadResult) : Info :=
  match r with
  | .ok p => p.1.2
  | .error _ => ⟨[], FVal.nan, [], []⟩

/-- Entry `(i, j)` of a read result table. -/
def entryOf (r : ReadResult) (i j : ℕ) : FVal :=
  ((tableOf r).getD i []).getD j FVal.nan

/-- Success of a read, as a decidable Bool. -/
def isOkRead (r : ReadResult) : Bool :=
  match r with
  | .ok _ => true
  | .error _ => false

/-! ## Runtime lemmas for the reader monad -/

theorem ReadM.run_bind {α β : Type} (m : ReadM α) (f : α → ReadM β) (s : TokStream) :
    (m >>= f) s =
      match m s with
      | .error e => .error e
      | .ok (a, t) => f a t := rfl

theorem ReadM.run_pure {α : Type} (a : α) (s : TokStream) :
    (pure a : ReadM α) s = .ok (a, s) := rfl

theorem fread_exact (n w : ℕ) (A B : TokStream) (h : A.length = n) :
    fread n w (A ++ B) = .ok (A, B) := by
  subst h
  simp [fread, List.take_left, List.drop_left]

theorem fread_cons (w : ℕ) (x : FVal) (t : TokStream) :
    fread 1 w (x :: t) = .ok ([x], t) := rfl

theorem fread_all (n w : ℕ) (A : TokStream) (h : A.length = n) :
    fread n w A = .ok (A, []) := by
  have := fread_exact n w A [] h
  simpa using this

theorem fread_short (n w : ℕ) (s : TokStream) (h : s.length < n) :
    fread n w s = .error (.structError n s.length) := by
  simp [fread, h]

theorem FVal.toN_num_nat (b : ℕ) : (FVal.num b).toN = b := by
  simp [FVal.toN, FVal.toZ]

theorem encStr_length (s : List ℕ) : (encStr s).length = s.length := by
  unfold encStr; exact List.length_map _ _

theorem decode_encStr (s : List ℕ) : (encStr s).map FVal.toN = s := by
  unfold encStr
  rw [List.map_map]
  simp only [Function.comp_def, FVal.toN_num_nat]
  exact List.map_id _

theorem readStrings_exact (len : ℕ) (post : List ℕ → List ℕ) :
    ∀ (ss : List (List ℕ)) (rest : TokStream),
      (∀ s ∈ ss, s.length = len) →
      readStrings len post ss.length ((ss.map encStr).flatten ++ rest) =
        .ok (ss.map post, rest) := by
  intro ss
  induction ss with
  | nil => intro rest _; simp [readStrings, ReadM.run_pure]
  | cons hd tl ih =>
      intro rest hlen
      have hhd : hd.length = len := hlen hd (by simp)
      have htl : ∀ s ∈ tl, s.length = len := fun s hs => hlen s (by simp [hs])
      simp only [List.length_cons, readStrings, ReadM.run_bind, List.map_cons,
        List.flatten_cons, List.append_assoc]
      rw [fread_exact len 1 (encStr hd) ((tl.map encStr).flatten ++ rest)
        (by rw [encStr_length, hhd])]
      simp only []
      rw [ih rest htl]
      simp only [ReadM.run_pure, decode_encStr]

theorem readStrings_count (len count : ℕ) (post : List ℕ → List ℕ)
    (ss : List (List ℕ)) (rest : TokStream) (hc : ss.length = count)
    (hl : ∀ s ∈ ss, s.length = len) :
    readStrings len post count ((ss.map encStr).flatten ++ rest) =
      .ok (ss.map post, rest) := by
  subst hc; exact readStrings_exact len post ss rest hl

theorem readHeader_encode (bf : BFile) (hWF : WFheader bf) (rest : TokStream) :
    readHeader (encodeHeader bf ++ rest) = .ok (hdrOf bf, rest) := by
  obtain ⟨hid, hscl, hoff, hnml, hnme, huml, hume⟩ := hWF
  have hN : ∀ X : TokStream,
      readStrings (lenNameEff bf) pyStrip (bf.numOutChans + 1)
        ((bf.chanNames.map encStr).flatten ++ X) = .ok (bf.chanNames.map pyStrip, X) :=
    fun X => readStrings_count _ _ _ _ X hnml hnme
  have hU : ∀ X : TokStream,
      readStrings (lenNameEff bf) (fun s => dropEnds (pyStrip s)) (bf.numOutChans + 1)
        ((bf.chanUnits.map encStr).flatten ++ X) = .ok (bf.chanUnits.map unitPost, X) := by
    intro X
    have := readStrings_count (lenNameEff bf) (bf.numOutChans + 1)
      (fun s => dropEnds (pyStrip s)) bf.chanUnits X huml hume
    simpa [unitPost] using this
  rcases hid with hf | hf | hf | hf <;>
    simp +decide only [lenNameEff, hf, if_true, if_false, ite_true, ite_false] at hN hU <;>
    simp +decide only [readHeader, encodeHeader, hdrOf, lenNameEff, hf, List.cons_append,
      List.append_assoc, List.nil_append, ReadM.run_bind, ReadM.run_pure, fread_cons,
      List.getD_cons_zero, Nat.cast_ofNat, Nat.cast_one, FVal.toN_num_nat,
      FVal.num.injEq, Nat.cast_inj, decode_encStr,
      fread_exact _ _ bf.colScl _ hscl, fread_exact _ _ bf.colOff _ hoff,
      fread_exact _ _ (encStr bf.descBytes) _ (encStr_length _),
      hN, hU, true_or, or_true, false_or, or_false, if_true, if_false, ite_true, ite_false]

/-! ## The buffered table fill -/

theorem getD_set_self {α : Type} (l : List α) (i : ℕ) (h : i < l.length) (a d : α) :
    (l.set i a).getD i d = a := by
  simp [List.getD_eq_getElem?_getD, List.getElem?_set, h]

theorem getD_set_ne {α : Type} (l : List α) (i j : ℕ) (h : i ≠ j) (a d : α) :
    (l.set i a).getD j d = l.getD j d := by
  simp [List.getD_eq_getElem?_getD, List.getElem?_set, h]

theorem writeRows_length (nCols nOff : ℕ) :
    ∀ (rows start : ℕ) (data : Table) (buf : TokStream),
      (writeRows nCols nOff rows start data buf).length = data.length := by
  intro rows
  induction rows with
  | zero => intro start data buf; rfl
  | succ k ih =>
      intro start data buf
      rw [writeRows, ih]
      simp

theorem writeRows_getD (nCols nOff : ℕ) :
    ∀ (rows start : ℕ) (data : Table) (buf : TokStream) (i : ℕ),
      start + rows ≤ data.length →
      (writeRows nCols nOff rows start data buf).getD i [] =
        (if start ≤ i ∧ i < start + rows then
          writeRow (data.getD i []) nOff ((buf.drop ((i - start) * nCols)).take nCols)
        else data.getD i []) := by
  intro rows
  induction rows with
  | zero =>
      intro start data buf i _
      rw [writeRows, if_neg (by omega)]
  | succ k ih =>
      intro start data buf i hlen
      rw [writeRows]
      rw [ih (start + 1) _ (buf.drop nCols) i (by rw [List.length_set]; omega)]
      by_cases h0 : i = start
      · subst h0
        rw [if_neg (by omega), if_pos (by omega), getD_set_self _ _ (by omega) _ _]
        simp
      · by_cases h1 : start + 1 ≤ i ∧ i < start + 1 + k
        · rw [if_pos h1, if_pos (by omega), getD_set_ne _ _ _ (by omega) _ _]
          rw [List.drop_drop]
          have harith : nCols + (i - (start + 1)) * nCols = (i - start) * nCols := by
            have h2 : i - start = (i - (start + 1)) + 1 := by omega
            rw [h2]; ring
          rw [harith]
        · rw [if_neg h1, if_neg (by omega), getD_set_ne _ _ _ (by omega) _ _]

theorem writeRows_split (nCols nOff : ℕ) :
    ∀ (a b start : ℕ) (data : Table) (buf : TokStream),
      writeRows nCols nOff (a + b) start data buf =
        writeRows nCols nOff b (start + a)
          (writeRows nCols nOff a start data (buf.take (a * nCols)))
          (buf.drop (a * nCols)) := by
  intro a
  induction a with
  | zero => intro b start data buf; simp [writeRows]
  | succ k ih =>
      intro b start data buf
      have hsa : k + 1 + b = (k + b) + 1 := by omega
      rw [hsa, writeRows, writeRows]
      rw [ih b (start + 1) _ (buf.drop nCols)]
      have e1 : (buf.take ((k + 1) * nCols)).take nCols = buf.take nCols := by
        rw [List.take_take]
        congr 1
        have : nCols ≤ (k + 1) * nCols := by nlinarith
        omega
      have e2 : (buf.take ((k + 1) * nCols)).drop nCols = (buf.drop nCols).take (k * nCols) := by
        rw [List.drop_take]
        congr 1
        ring_nf
        omega
      have e3 : buf.drop ((k + 1) * nCols) = (buf.drop nCols).drop (k * nCols) := by
        rw [List.drop_drop]
        congr 1
        ring
      have e4 : start + 1 + k = start + (k + 1) := by omega
      rw [e1, e2, e3, e4]

theorem bufLoop_spec (n nCols BufferSize nOff : ℕ)
    (hB : 0 < BufferSize) (hBd : nCols ∣ BufferSize) :
    ∀ (fuel m nIntRead nLinesRead : ℕ) (data : Table) (P rest : TokStream),
      P.length = m → nIntRead + m = n → nCols ∣ m → m < fuel →
      nLinesRead + m / nCols ≤ data.length →
      bufLoop n nCols BufferSize nOff fuel nIntRead nLinesRead data (P ++ rest) =
        .ok (writeRows nCols nOff (m / nCols) nLinesRead data P, rest) := by
  intro fuel
  induction fuel with
  | zero => intro m _ _ _ _ _ _ _ _ hfuel _; omega
  | succ fuel ih =>
      intro m nIntRead nLinesRead data P rest hP hsum hdvd hfuel hrows
      by_cases hm : m = 0
      · subst hm
        have hP0 : P = [] := List.length_eq_zero.mp hP
        subst hP0
        rw [bufLoop, if_neg (by omega)]
        simp [writeRows]
      · have hguard : nIntRead < n := by omega
        rw [bufLoop, if_pos hguard]
        set k := min (n - nIntRead) BufferSize with hk
        have hkm : k = min m BufferSize := by rw [hk]; congr 1; omega
        have hkpos : 0 < k := by rw [hkm]; exact lt_min (by omega) hB
        have hkdvd : nCols ∣ k := by
          rw [hkm]
          rcases Nat.le_total m BufferSize with h | h
          · rwa [min_eq_left h]
          · rwa [min_eq_right h]
        have hkle : k ≤ m := by rw [hkm]; exact min_le_left _ _
        have hslen : ¬ ((P ++ rest).length < k) := by
          rw [List.length_append, hP]; omega
        rw [if_neg hslen]
        have hmod : ¬ ¬ k % nCols = 0 := by
          simp only [not_not]
          omega
        rw [if_neg hmod]
        have hdivle : k / nCols ≤ m / nCols := Nat.div_le_div_right hkle
        have hbound : ¬ (data.length < nLinesRead + k / nCols) := by omega
        rw [if_neg hbound]
        have htake : (P ++ rest).take k = P.take k :=
          List.take_append_of_le_length (by omega)
        have hdrop : (P ++ rest).drop k = P.drop k ++ rest :=
          List.drop_append_of_le_length (by omega)
        rw [htake, hdrop]
        have hdivsplit : k / nCols + (m - k) / nCols = m / nCols := by
          have hmk : k + (m - k) = m := by omega
          have h2 := Nat.add_div_of_dvd_right (b := m - k) hkdvd
          rw [hmk] at h2
          exact h2.symm
        have hlen2 :
            (writeRows nCols nOff (k / nCols) nLinesRead data (P.take k)).length =
              data.length := writeRows_length _ _ _ _ _ _
        rw [ih (m - k) (nIntRead + k) (nLinesRead + k / nCols) _ (P.drop k) rest
          (by rw [List.length_drop]; omega) (by omega)
          (Nat.dvd_sub' hdvd hkdvd) (by omega) (by rw [hlen2]; omega)]
        have hsplit := writeRows_split nCols nOff (k / nCols) ((m - k) / nCols)
          nLinesRead data P
        rw [Nat.div_mul_cancel hkdvd] at hsplit
        rw [← hsplit, hdivsplit]

theorem freadRowOrderTableBuffered_ok (n w nCols nOff : ℕ) (hC : 0 < nCols)
    (hMax : nCols ≤ 163840) (hdvd : nCols ∣ n) (P rest : TokStream)
    (hP : P.length = n) :
    freadRowOrderTableBuffered n w nCols nOff (P ++ rest) =
      .ok (writeRows nCols nOff (n / nCols) 0
        (List.replicate (n / nCols) (List.replicate (nCols + nOff) (FVal.num 0))) P,
        rest) := by
  have hq : 0 < 163840 / nCols := Nat.div_pos hMax hC
  have hB : 0 < nCols * (163840 / nCols) := Nat.mul_pos hC hq
  rw [freadRowOrderTableBuffered]
  rw [if_neg (by omega)]
  simp only []
  rw [if_neg (by omega)]
  rw [bufLoop_spec n nCols (nCols * (163840 / nCols)) nOff hB (Dvd.intro _ rfl)
    (n + 1) n 0 0 _ P rest hP (by omega) hdvd (by omega) (by simp)]

theorem freadRowOrderTableBuffered_zeroCols (n w nOff : ℕ) (s : TokStream) :
    freadRowOrderTableBuffered n w 0 nOff s = .error .zeroDivision := by
  rw [freadRowOrderTableBuffered, if_pos rfl]

theorem freadRowOrderTableBuffered_bigCols (n w nCols nOff : ℕ) (s : TokStream)
    (h : 163840 < nCols) :
    freadRowOrderTableBuffered n w nCols nOff s = .error .zeroDivision := by
  rw [freadRowOrderTableBuffered]
  rw [if_neg (by omega)]
  simp only []
  rw [if_pos]
  rw [Nat.div_eq_of_lt h, Nat.mul_zero]

/-! ## Pointwise characterization of the scaling stages -/

theorem foldl_map_comm {α β : Type} (L : List β) (g : β → α → α) :
    ∀ (data : List α),
      L.foldl (fun d x => d.map (g x)) data = data.map (fun a => L.foldl (fun r x => g x r) a) := by
  induction L with
  | nil => intro data; simp
  | cons hd tl ih =>
      intro data
      simp only [List.foldl_cons]
      rw [ih (data.map (g hd)), List.map_map]
      rfl

theorem rowScale_length (f : ℕ → FVal → FVal) (k : ℕ) (row : List FVal) :
    ((List.range k).foldl
      (fun r iCol => r.set (iCol + 1) (f iCol (r.getD (iCol + 1) (FVal.num 0)))) row).length =
    row.length := by
  induction k with
  | zero => simp
  | succ m ih =>
      rw [List.range_succ, List.foldl_append, List.foldl_cons, List.foldl_nil,
        List.length_set, ih]

theorem rowScale_getD (f : ℕ → FVal → FVal) :
    ∀ (k : ℕ) (row : List FVal) (j : ℕ), k < row.length →
      (((List.range k).foldl
        (fun r iCol => r.set (iCol + 1) (f iCol (r.getD (iCol + 1) (FVal.num 0)))) row).getD j
          (FVal.num 0)) =
        if 1 ≤ j ∧ j ≤ k then f (j - 1) (row.getD j (FVal.num 0))
        else row.getD j (FVal.num 0) := by
  intro k
  induction k with
  | zero =>
      intro row j _
      rw [if_neg (by omega)]
      simp
  | succ m ih =>
      intro row j hk
      rw [List.range_succ, List.foldl_append, List.foldl_cons, List.foldl_nil]
      have hmrow : m < row.length := by omega
      by_cases hj : j = m + 1
      · subst hj
        rw [getD_set_self _ _ (by rw [rowScale_length]; omega) _ _]
        rw [ih row (m + 1) hmrow, if_neg (by omega), if_pos (by omega)]
        simp
      · rw [getD_set_ne _ _ _ (fun hh => hj hh.symm) _ _]
        rw [ih row j hmrow]
        by_cases hj2 : 1 ≤ j ∧ j ≤ m
        · rw [if_pos hj2, if_pos (by omega)]
        · rw [if_neg hj2, if_neg (by omega)]

theorem getD_replicate {α : Type} (n i : ℕ) (a d : α) (h : i < n) :
    (List.replicate n a).getD i d = a := by
  rw [List.getD_eq_getElem?_getD, List.getElem?_replicate, if_pos h]
  rfl

/-- The per-channel dequantization the buffered scaling loop applies to
one stored value of channel `iCol`. -/
def colFn (scl off : ScaleArr) (iCol : ℕ) (v : FVal) : FVal :=
  if (scl.atIdx iCol).isNan && (off.atIdx iCol).isNan then FVal.num 0
  else (v - off.atIdx iCol) / scl.atIdx iCol

theorem scaleColumns_eq_map (data : Table) (scl off : ScaleArr) (k : ℕ) :
    scaleColumns data scl off k =
      data.map fun row =>
        (List.range k).foldl
          (fun r iCol => r.set (iCol + 1) (colFn scl off iCol (r.getD (iCol + 1) (FVal.num 0))))
          row :=
  foldl_map_comm (List.range k)
    (fun (iCol : ℕ) (row : List FVal) =>
      row.set (iCol + 1)
        (if (scl.atIdx iCol).isNan && (off.atIdx iCol).isNan then FVal.num 0
         else (row.getD (iCol + 1) (FVal.num 0) - off.atIdx iCol) / scl.atIdx iCol))
    data

theorem rowScale_cons (scl off : ScaleArr) (k : ℕ) (seg : List FVal) (hseg : seg.length = k) :
    (List.range k).foldl
      (fun r iCol => r.set (iCol + 1) (colFn scl off iCol (r.getD (iCol + 1) (FVal.num 0))))
      (FVal.num 0 :: seg) =
    FVal.num 0 :: (List.range k).map fun c => colFn scl off c (seg.getD c (FVal.num 0)) := by
  apply List.ext_getElem
  · rw [rowScale_length]
    simp [hseg]
  · intro j h1 h2
    have hlen : (FVal.num 0 :: seg).length = k + 1 := by simp [hseg]
    have hj : j < k + 1 := by
      rw [rowScale_length, hlen] at h1
      exact h1
    rw [← List.getD_eq_getElem _ (FVal.num 0) h1, ← List.getD_eq_getElem _ (FVal.num 0) h2]
    rw [rowScale_getD _ k _ j (by rw [hlen]; omega)]
    rcases j with _ | j
    · rw [if_neg (by omega)]
      rfl
    · rw [if_pos (by omega)]
      simp only [Nat.add_sub_cancel, List.getD_cons_succ]
      have hjk : j < k := by omega
      have hmap : ∀ (f : ℕ → FVal) (d : FVal), ((List.range k).map f).getD j d = f j := by
        intro f d
        rw [List.getD_eq_getElem _ d (by simp [hjk]), List.getElem_map, List.getElem_range]
      rw [hmap]

theorem zipWith_map_same {α β γ δ : Type} (g : β → γ → δ) (f1 : α → β) (f2 : α → γ)
    (l : List α) :
    List.zipWith g (l.map f1) (l.map f2) = l.map fun a => g (f1 a) (f2 a) := by
  induction l with
  | nil => rfl
  | cons hd tl ih => simp [ih]

theorem getD_map_range {α : Type} (k j : ℕ) (f : ℕ → α) (d : α) (h : j < k) :
    ((List.range k).map f).getD j d = f j := by
  rw [List.getD_eq_getElem _ d (by simp [h]), List.getElem_map, List.getElem_range]

theorem getD_drop_take {α : Type} (P : List α) (a k c : ℕ) (d : α) (hc : c < k)
    (hlen : a + k ≤ P.length) :
    ((P.drop a).take k).getD c d = P.getD (a + c) d := by
  have h1 : c < ((P.drop a).take k).length := by
    simp [List.length_take, List.length_drop]
    omega
  have h2 : a + c < P.length := by omega
  rw [List.getD_eq_getElem _ d h1, List.getD_eq_getElem _ d h2]
  rw [List.getElem_take, List.getElem_drop]

/-- The reconstructed time column as a list. -/
def timeList (bf : BFile) : List FVal := (List.range bf.nt).map fun i => timeAt bf i

theorem hdr_scl_atIdx (bf : BFile) (c : ℕ) (hc : c < bf.numOutChans) :
    (hdrOf bf).colScl.atIdx c = sclAt bf c := by
  by_cases h3 : bf.fileID = 3
  · rw [sclAt, if_pos h3]
    have hcol : (hdrOf bf).colScl = ScaleArr.col (List.replicate bf.numOutChans (FVal.num 1)) := by
      rw [hdrOf]; simp [h3]
    rw [hcol, ScaleArr.atIdx]
    exact getD_replicate _ _ _ _ hc
  · rw [sclAt, if_neg h3]
    have hcol : (hdrOf bf).colScl = ScaleArr.flat bf.colScl := by
      rw [hdrOf]; simp [h3]
    rw [hcol, ScaleArr.atIdx]

theorem hdr_off_atIdx (bf : BFile) (c : ℕ) (hc : c < bf.numOutChans) :
    (hdrOf bf).colOff.atIdx c = offAt bf c := by
  by_cases h3 : bf.fileID = 3
  · rw [offAt, if_pos h3]
    have hcol : (hdrOf bf).colOff = ScaleArr.col (List.replicate bf.numOutChans (FVal.num 0)) := by
      rw [hdrOf]; simp [h3]
    rw [hcol, ScaleArr.atIdx]
    exact getD_replicate _ _ _ _ hc
  · rw [offAt, if_neg h3]
    have hcol : (hdrOf bf).colOff = ScaleArr.flat bf.colOff := by
      rw [hdrOf]; simp [h3]
    rw [hcol, ScaleArr.atIdx]

theorem rawTable_eq (bf : BFile) (hC : 0 < bf.numOutChans)
    (hP : bf.payload.length = bf.nt * bf.numOutChans) :
    writeRows bf.numOutChans 1 bf.nt 0
      (List.replicate bf.nt (List.replicate (bf.numOutChans + 1) (FVal.num 0)))
      bf.payload =
    (List.range bf.nt).map fun i =>
      FVal.num 0 :: ((bf.payload.drop (i * bf.numOutChans)).take bf.numOutChans) := by
  apply List.ext_getElem
  · rw [writeRows_length]
    simp
  · intro i h1 h2
    have hi : i < bf.nt := by
      rw [writeRows_length] at h1
      simpa using h1
    rw [← List.getD_eq_getElem _ [] h1, ← List.getD_eq_getElem _ [] h2]
    rw [writeRows_getD _ _ _ _ _ _ _ (by simp)]
    rw [if_pos (by omega)]
    rw [getD_map_range _ _ _ _ hi]
    rw [getD_replicate _ _ _ _ hi]
    have hseg : ((bf.payload.drop ((i - 0) * bf.numOutChans)).take bf.numOutChans).length =
        bf.numOutChans := by
      rw [List.length_take, List.length_drop, hP]
      have : (i + 1) * bf.numOutChans ≤ bf.nt * bf.numOutChans :=
        Nat.mul_le_mul_right _ (by omega)
      have h2 : (i - 0) * bf.numOutChans = i * bf.numOutChans := by simp
      rw [h2]
      have : bf.numOutChans ≤ bf.nt * bf.numOutChans - i * bf.numOutChans := by
        have hh : i * bf.numOutChans + bf.numOutChans = (i + 1) * bf.numOutChans := by ring
        omega
      omega
    rw [writeRow, hseg]
    rw [List.take_replicate, List.drop_replicate]
    have e1 : min 1 (bf.numOutChans + 1) = 1 := by omega
    have e2 : bf.numOutChans + 1 - (1 + bf.numOutChans) = 0 := by omega
    rw [e1, e2]
    simp

theorem bufAssemble (bf : BFile) (hC : 0 < bf.numOutChans)
    (hP : bf.payload.length = bf.nt * bf.numOutChans) :
    setTimeCol
      (scaleColumns
        (writeRows bf.numOutChans 1 bf.nt 0
          (List.replicate bf.nt (List.replicate (bf.numOutChans + 1) (FVal.num 0)))
          bf.payload)
        (hdrOf bf).colScl (hdrOf bf).colOff bf.numOutChans)
      (timeList bf) = expTableBuf bf := by
  rw [rawTable_eq bf hC hP, scaleColumns_eq_map, List.map_map]
  have hrows : ∀ i ∈ List.range bf.nt,
      ((fun row =>
        (List.range bf.numOutChans).foldl
          (fun r iCol =>
            r.set (iCol + 1)
              (colFn (hdrOf bf).colScl (hdrOf bf).colOff iCol (r.getD (iCol + 1) (FVal.num 0))))
          row) ∘ fun i =>
            FVal.num 0 :: ((bf.payload.drop (i * bf.numOutChans)).take bf.numOutChans)) i =
      FVal.num 0 :: (List.range bf.numOutChans).map fun c =>
        colFn (hdrOf bf).colScl (hdrOf bf).colOff c
          (((bf.payload.drop (i * bf.numOutChans)).take bf.numOutChans).getD c (FVal.num 0)) := by
    intro i hi
    have hi2 : i < bf.nt := List.mem_range.mp hi
    apply rowScale_cons
    rw [List.length_take, List.length_drop, hP]
    have hmul : i * bf.numOutChans + bf.numOutChans = (i + 1) * bf.numOutChans := by ring
    have : (i + 1) * bf.numOutChans ≤ bf.nt * bf.numOutChans :=
      Nat.mul_le_mul_right _ (by omega)
    omega
  rw [List.map_congr_left hrows]
  rw [setTimeCol, timeList, zipWith_map_same]
  rw [expTableBuf]
  apply List.map_congr_left
  intro i hi
  have hi2 : i < bf.nt := List.mem_range.mp hi
  show timeAt bf i :: _ = timeAt bf i :: _
  congr 1
  apply List.map_congr_left
  intro c hc
  have hc2 : c < bf.numOutChans := List.mem_range.mp hc
  have hidx : i * bf.numOutChans + bf.numOutChans ≤ bf.payload.length := by
    rw [hP]
    have hmul : i * bf.numOutChans + bf.numOutChans = (i + 1) * bf.numOutChans := by ring
    rw [hmul]
    exact Nat.mul_le_mul_right _ (by omega)
  rw [getD_drop_take _ _ _ _ _ hc2 hidx]
  rw [colFn, dequantBuf, hdr_scl_atIdx _ _ hc2, hdr_off_atIdx _ _ hc2]
  have hraw : bf.payload.getD (i * bf.numOutChans + c) (FVal.num 0) = rawAt bf i c := by
    rw [rawAt]
    have hlt : i * bf.numOutChans + c < bf.payload.length := by omega
    rw [List.getD_eq_getElem _ _ hlt, List.getD_eq_getElem _ _ hlt]
  rw [hraw]

theorem infoOf_hdrOf (bf : BFile) : infoOf (hdrOf bf) = expInfo bf := rfl

theorem readBuf_ok (bf : BFile) (hWF : WF bf) (hC : 0 < bf.numOutChans)
    (hMax : bf.numOutChans ≤ 163840) :
    ReadFASTbinary true (encode bf) = .ok ((expTableBuf bf, expInfo bf), []) := by
  have hWFh := hWF.1
  obtain ⟨⟨hid, hscl, hoff, hnml, hnme, huml, hume⟩, hpt, hpay⟩ := hWF
  have hnt : (hdrOf bf).nt = bf.nt := rfl
  have hch : (hdrOf bf).numOutChans = bf.numOutChans := rfl
  have hfid : (hdrOf bf).fileID = FVal.num (bf.fileID : ℚ) := rfl
  have hta : (hdrOf bf).timeA = bf.timeA := rfl
  have htb : (hdrOf bf).timeB = bf.timeB := rfl
  have hdiv : bf.nt * bf.numOutChans / bf.numOutChans = bf.nt := Nat.mul_div_left bf.nt hC
  have hfr : ∀ w, freadRowOrderTableBuffered (bf.nt * bf.numOutChans) w bf.numOutChans 1
      bf.payload =
      .ok (writeRows bf.numOutChans 1 bf.nt 0
        (List.replicate bf.nt (List.replicate (bf.numOutChans + 1) (FVal.num 0)))
        bf.payload, []) := by
    intro w
    have h := freadRowOrderTableBuffered_ok (bf.nt * bf.numOutChans) w bf.numOutChans 1 hC
      hMax (dvd_mul_left _ _) bf.payload [] hpay
    rw [List.append_nil] at h
    rw [h, hdiv]
  have hasm := bufAssemble bf hC hpay
  rcases hid with hf | hf | hf | hf
  · -- format 1: packed time column present
    have hptlen : (bf.packedTime.map fun q => FVal.num q).length = bf.nt := by
      rw [List.length_map]; exact hpt hf
    have htime1 : ((bf.packedTime.map fun q => FVal.num q).map
        fun p => (p - bf.timeB) / bf.timeA) = timeList bf := by
      apply List.ext_getElem
      · simp only [timeList]
        rw [List.length_map, hptlen, List.length_map, List.length_range]
      · intro i h1 h2
        have hi : i < bf.nt := by
          rw [List.length_map, hptlen] at h1; exact h1
        have hip : i < bf.packedTime.length := by rw [hpt hf]; exact hi
        rw [List.getElem_map, List.getElem_map]
        simp only [timeList]
        rw [List.getElem_map, List.getElem_range, timeAt, if_pos hf]
        have : bf.packedTime.getD i 0 = bf.packedTime[i] :=
          List.getD_eq_getElem _ _ hip
        rw [this]
    simp +decide only [ReadFASTbinary, encode, hf, ReadM.run_bind, ReadM.run_pure,
      readHeader_encode bf hWFh, hnt, hch, hfid, hta, htb, Nat.cast_one,
      FVal.num.injEq, if_true, if_false, ite_true, ite_false,
      fread_exact _ _ (bf.packedTime.map fun q => FVal.num q) _ hptlen,
      hptlen, lt_self_iff_false, hfr, htime1, hasm, infoOf_hdrOf]
  · -- format 2
    have htime : ((List.range bf.nt).map fun (i : ℕ) => bf.timeA + bf.timeB * FVal.num (i : ℚ)) =
        timeList bf := by
      unfold timeList
      apply List.map_congr_left
      intro i _
      rw [timeAt, if_neg (by rw [hf]; omega)]
    simp +decide only [ReadFASTbinary, encode, hf, ReadM.run_bind, ReadM.run_pure,
      readHeader_encode bf hWFh, hnt, hch, hfid, hta, htb, Nat.cast_ofNat,
      FVal.num.injEq, if_true, if_false, ite_true, ite_false, List.nil_append,
      hfr, htime, hasm, infoOf_hdrOf]
  · -- format 3
    have htime : ((List.range bf.nt).map fun (i : ℕ) => bf.timeA + bf.timeB * FVal.num (i : ℚ)) =
        timeList bf := by
      unfold timeList
      apply List.map_congr_left
      intro i _
      rw [timeAt, if_neg (by rw [hf]; omega)]
    simp +decide only [ReadFASTbinary, encode, hf, ReadM.run_bind, ReadM.run_pure,
      readHeader_encode bf hWFh, hnt, hch, hfid, hta, htb, Nat.cast_ofNat,
      FVal.num.injEq, if_true, if_false, ite_true, ite_false, List.nil_append,
      hfr, htime, hasm, infoOf_hdrOf]
  · -- format 4
    have htime : ((List.range bf.nt).map fun (i : ℕ) => bf.timeA + bf.timeB * FVal.num (i : ℚ)) =
        timeList bf := by
      unfold timeList
      apply List.map_congr_left
      intro i _
      rw [timeAt, if_neg (by rw [hf]; omega)]
    simp +decide only [ReadFASTbinary, encode, hf, ReadM.run_bind, ReadM.run_pure,
      readHeader_encode bf hWFh, hnt, hch, hfid, hta, htb, Nat.cast_ofNat,
      FVal.num.injEq, if_true, if_false, ite_true, ite_false, List.nil_append,
      hfr, htime, hasm, infoOf_hdrOf]

/-! ## The unbuffered pipeline -/

theorem reshape_length (nRows nCols : ℕ) (l : TokStream) :
    (reshape nRows nCols l).length = nRows := by
  rw [reshape, List.length_map, List.length_range]

theorem bcastFlat_ok (op : FVal → FVal → FVal) (data : Table) (v : List FVal)
    (h : ∀ r ∈ data, r.length = v.length) :
    bcastFlat op data v = .ok (data.map fun r => List.zipWith op r v) := by
  rw [bcastFlat]
  have hall : (data.all fun r => r.length = v.length) = true := by
    rw [List.all_eq_true]
    intro r hr
    exact decide_eq_true (h r hr)
  rw [hall]
  simp

theorem zipWith_maprange (op : FVal → FVal → FVal) (f : ℕ → FVal) (C : ℕ)
    (v : List FVal) (hv : v.length = C) :
    List.zipWith op ((List.range C).map f) v =
      (List.range C).map fun c => op (f c) (v.getD c FVal.nan) := by
  apply List.ext_getElem
  · simp [hv]
  · intro c h1 h2
    have hc : c < C := by
      simp [hv] at h1
      omega
    rw [List.getElem_zipWith, List.getElem_map, List.getElem_map, List.getElem_range]
    rw [List.getD_eq_getElem _ _ (by omega : c < v.length)]

theorem liftE_run {α : Type} (e : Except Err α) (s : TokStream) :
    liftE e s =
      match e with
      | .error er => .error er
      | .ok a => .ok (a, s) := rfl

theorem readUnb_flat_ok (bf : BFile) (hWF : WF bf) (h3 : bf.fileID ≠ 3) :
    ReadFASTbinary false (encode bf) = .ok ((expTableUnb bf, expInfo bf), []) := by
  have hWFh := hWF.1
  obtain ⟨⟨hid, hscl, hoff, hnml, hnme, huml, hume⟩, hpt, hpay⟩ := hWF
  have hnt : (hdrOf bf).nt = bf.nt := rfl
  have hch : (hdrOf bf).numOutChans = bf.numOutChans := rfl
  have hfid : (hdrOf bf).fileID = FVal.num (bf.fileID : ℚ) := rfl
  have hta : (hdrOf bf).timeA = bf.timeA := rfl
  have htb : (hdrOf bf).timeB = bf.timeB := rfl
  have hcoloff : (hdrOf bf).colOff = ScaleArr.flat bf.colOff := by
    rw [hdrOf]; simp [h3]
  have hcolscl : (hdrOf bf).colScl = ScaleArr.flat bf.colScl := by
    rw [hdrOf]; simp [h3]
  have hfrd : ∀ w, fread (bf.nt * bf.numOutChans) w bf.payload = .ok (bf.payload, []) :=
    fun w => fread_all _ w _ hpay
  have hsub : bcastArr FVal.sub (reshape bf.nt bf.numOutChans bf.payload)
      (ScaleArr.flat bf.colOff) =
      .ok ((List.range bf.nt).map fun i => (List.range bf.numOutChans).map fun c =>
        bf.payload.getD (i * bf.numOutChans + c) (FVal.num 0) -
          bf.colOff.getD c FVal.nan) := by
    rw [bcastArr]
    rw [bcastFlat_ok _ _ _ (fun r hr => by
      rw [reshape] at hr
      obtain ⟨i, _, rfl⟩ := List.mem_map.mp hr
      rw [List.length_map, List.length_range, hoff])]
    congr 1
    rw [reshape, List.map_map]
    apply List.map_congr_left
    intro i _
    exact zipWith_maprange FVal.sub _ _ _ hoff
  have hdivt : bcastArr FVal.div
      ((List.range bf.nt).map fun i => (List.range bf.numOutChans).map fun c =>
        bf.payload.getD (i * bf.numOutChans + c) (FVal.num 0) -
          bf.colOff.getD c FVal.nan)
      (ScaleArr.flat bf.colScl) =
      .ok ((List.range bf.nt).map fun i => (List.range bf.numOutChans).map fun c =>
        (bf.payload.getD (i * bf.numOutChans + c) (FVal.num 0) -
          bf.colOff.getD c FVal.nan) / bf.colScl.getD c FVal.nan) := by
    rw [bcastArr]
    rw [bcastFlat_ok _ _ _ (fun r hr => by
      obtain ⟨i, _, rfl⟩ := List.mem_map.mp hr
      rw [List.length_map, List.length_range, hscl])]
    rw [List.map_map]
    congr 1
    apply List.map_congr_left
    intro i _
    exact zipWith_maprange FVal.div _ _ _ hscl
  have hcon : concatTime (timeList bf)
      ((List.range bf.nt).map fun i => (List.range bf.numOutChans).map fun c =>
        (bf.payload.getD (i * bf.numOutChans + c) (FVal.num 0) -
          bf.colOff.getD c FVal.nan) / bf.colScl.getD c FVal.nan) =
      .ok (expTableUnb bf) := by
    rw [concatTime, if_pos (by
      rw [List.length_map, List.length_range, timeList, List.length_map, List.length_range])]
    rw [timeList, zipWith_map_same]
    rw [expTableUnb]
    congr 1
    apply List.map_congr_left
    intro i hi
    have hi2 : i < bf.nt := List.mem_range.mp hi
    congr 1
    apply List.map_congr_left
    intro c hc
    have hc2 : c < bf.numOutChans := List.mem_range.mp hc
    rw [dequantUnb]
    have hidx : i * bf.numOutChans + c < bf.payload.length := by
      rw [hpay]
      have hmul : i * bf.numOutChans + bf.numOutChans = (i + 1) * bf.numOutChans := by ring
      have : (i + 1) * bf.numOutChans ≤ bf.nt * bf.numOutChans :=
        Nat.mul_le_mul_right _ (by omega)
      omega
    have hraw : bf.payload.getD (i * bf.numOutChans + c) (FVal.num 0) = rawAt bf i c := by
      rw [rawAt, List.getD_eq_getElem _ _ hidx, List.getD_eq_getElem _ _ hidx]
    rw [hraw, sclAt, if_neg h3, offAt, if_neg h3]
  rcases hid with hf | hf | hf | hf
  · -- format 1
    have hptlen : (bf.packedTime.map fun q => FVal.num q).length = bf.nt := by
      rw [List.length_map]; exact hpt hf
    have htime1 : ((bf.packedTime.map fun q => FVal.num q).map
        fun p => (p - bf.timeB) / bf.timeA) = timeList bf := by
      apply List.ext_getElem
      · simp only [timeList]
        rw [List.length_map, hptlen, List.length_map, List.length_range]
      · intro i h1 h2
        have hi : i < bf.nt := by
          rw [List.length_map, hptlen] at h1; exact h1
        have hip : i < bf.packedTime.length := by rw [hpt hf]; exact hi
        rw [List.getElem_map, List.getElem_map]
        simp only [timeList]
        rw [List.getElem_map, List.getElem_range, timeAt, if_pos hf]
        have : bf.packedTime.getD i 0 = bf.packedTime[i] :=
          List.getD_eq_getElem _ _ hip
        rw [this]
    simp +decide only [ReadFASTbinary, encode, hf, ReadM.run_bind, ReadM.run_pure,
      readHeader_encode bf hWFh, hnt, hch, hfid, hta, htb, Nat.cast_one,
      FVal.num.injEq, if_true, if_false, ite_true, ite_false,
      fread_exact _ _ (bf.packedTime.map fun q => FVal.num q) _ hptlen,
      hptlen, hpay, lt_self_iff_false, hfrd, liftE_run, hcoloff, hcolscl,
      hsub, hdivt, htime1, hcon, infoOf_hdrOf]
  · have htime : ((List.range bf.nt).map fun (i : ℕ) =>
        bf.timeA + bf.timeB * FVal.num (i : ℚ)) = timeList bf := by
      unfold timeList
      apply List.map_congr_left
      intro i _
      rw [timeAt, if_neg (by rw [hf]; omega)]
    simp +decide only [ReadFASTbinary, encode, hf, ReadM.run_bind, ReadM.run_pure,
      readHeader_encode bf hWFh, hnt, hch, hfid, hta, htb, Nat.cast_ofNat,
      FVal.num.injEq, if_true, if_false, ite_true, ite_false, List.nil_append,
      hpay, lt_self_iff_false, hfrd, liftE_run, hcoloff, hcolscl,
      hsub, hdivt, htime, hcon, infoOf_hdrOf]
  · exact absurd hf h3
  · have htime : ((List.range bf.nt).map fun (i : ℕ) =>
        bf.timeA + bf.timeB * FVal.num (i : ℚ)) = timeList bf := by
      unfold timeList
      apply List.map_congr_left
      intro i _
      rw [timeAt, if_neg (by rw [hf]; omega)]
    simp +decide only [ReadFASTbinary, encode, hf, ReadM.run_bind, ReadM.run_pure,
      readHeader_encode bf hWFh, hnt, hch, hfid, hta, htb, Nat.cast_ofNat,
      FVal.num.injEq, if_true, if_false, ite_true, ite_false, List.nil_append,
      hpay, lt_self_iff_false, hfrd, liftE_run, hcoloff, hcolscl,
      hsub, hdivt, htime, hcon, infoOf_hdrOf]

theorem readUnb_f3_ok (bf : BFile) (hWF : WF bf) (hf : bf.fileID = 3)
    (hOK : bf.nt = bf.numOutChans ∨ bf.numOutChans = 1) :
    ReadFASTbinary false (encode bf) = .ok ((expTableUnb bf, expInfo bf), []) := by
  have hWFh := hWF.1
  obtain ⟨⟨hid, hscl, hoff, hnml, hnme, huml, hume⟩, hpt, hpay⟩ := hWF
  have hnt : (hdrOf bf).nt = bf.nt := rfl
  have hch : (hdrOf bf).numOutChans = bf.numOutChans := rfl
  have hfid : (hdrOf bf).fileID = FVal.num (bf.fileID : ℚ) := rfl
  have hta : (hdrOf bf).timeA = bf.timeA := rfl
  have htb : (hdrOf bf).timeB = bf.timeB := rfl
  have hcoloff : (hdrOf bf).colOff =
      ScaleArr.col (List.replicate bf.numOutChans (FVal.num 0)) := by
    rw [hdrOf]; simp [hf]
  have hcolscl : (hdrOf bf).colScl =
      ScaleArr.col (List.replicate bf.numOutChans (FVal.num 1)) := by
    rw [hdrOf]; simp [hf]
  have hfrd : ∀ w, fread (bf.nt * bf.numOutChans) w bf.payload = .ok (bf.payload, []) :=
    fun w => fread_all _ w _ hpay
  have htime : ((List.range bf.nt).map fun (i : ℕ) =>
      bf.timeA + bf.timeB * FVal.num (i : ℚ)) = timeList bf := by
    unfold timeList
    apply List.map_congr_left
    intro i _
    rw [timeAt, if_neg (by rw [hf]; omega)]
  have hidx : ∀ i c : ℕ, i < bf.nt → c < bf.numOutChans →
      i * bf.numOutChans + c < bf.payload.length := by
    intro i c hi hc
    rw [hpay]
    have hmul : i * bf.numOutChans + bf.numOutChans = (i + 1) * bf.numOutChans := by ring
    have : (i + 1) * bf.numOutChans ≤ bf.nt * bf.numOutChans :=
      Nat.mul_le_mul_right _ (by omega)
    omega
  have hraw : ∀ i c : ℕ, i < bf.nt → c < bf.numOutChans →
      bf.payload.getD (i * bf.numOutChans + c) (FVal.num 0) = rawAt bf i c := by
    intro i c hi hc
    rw [rawAt, List.getD_eq_getElem _ _ (hidx i c hi hc),
      List.getD_eq_getElem _ _ (hidx i c hi hc)]
  have hexp : ∀ D : Table,
      D = ((List.range bf.nt).map fun i => (List.range bf.numOutChans).map fun c =>
        (bf.payload.getD (i * bf.numOutChans + c) (FVal.num 0) - FVal.num 0) /
          FVal.num 1) →
      concatTime (timeList bf) D = .ok (expTableUnb bf) := by
    intro D hD
    subst hD
    rw [concatTime, if_pos (by
      rw [List.length_map, List.length_range, timeList, List.length_map, List.length_range])]
    rw [timeList, zipWith_map_same, expTableUnb]
    congr 1
    apply List.map_congr_left
    intro i hi
    have hi2 : i < bf.nt := List.mem_range.mp hi
    congr 1
    apply List.map_congr_left
    intro c hc
    have hc2 : c < bf.numOutChans := List.mem_range.mp hc
    rw [dequantUnb, hraw i c hi2 hc2, sclAt, if_pos hf, offAt, if_pos hf]
  by_cases hEq : bf.nt = bf.numOutChans
  · -- square case: axis 0 lengths agree
    have hsub : bcastArr FVal.sub (reshape bf.nt bf.numOutChans bf.payload)
        (ScaleArr.col (List.replicate bf.numOutChans (FVal.num 0))) =
        .ok ((List.range bf.nt).map fun i => (List.range bf.numOutChans).map fun c =>
          bf.payload.getD (i * bf.numOutChans + c) (FVal.num 0) - FVal.num 0) := by
      rw [bcastArr, bcastCol, if_pos (by rw [reshape_length, List.length_replicate, hEq])]
      rw [reshape_length]
      congr 1
      apply List.map_congr_left
      intro i hi
      have hi2 : i < bf.nt := List.mem_range.mp hi
      rw [reshape, getD_map_range _ _ _ _ hi2, List.map_map]
      apply List.map_congr_left
      intro c _
      rw [getD_replicate _ _ _ _ (by omega : i < bf.numOutChans)]
      rfl
    have hdivt : bcastArr FVal.div
        ((List.range bf.nt).map fun i => (List.range bf.numOutChans).map fun c =>
          bf.payload.getD (i * bf.numOutChans + c) (FVal.num 0) - FVal.num 0)
        (ScaleArr.col (List.replicate bf.numOutChans (FVal.num 1))) =
        .ok ((List.range bf.nt).map fun i => (List.range bf.numOutChans).map fun c =>
          (bf.payload.getD (i * bf.numOutChans + c) (FVal.num 0) - FVal.num 0) /
            FVal.num 1) := by
      rw [bcastArr, bcastCol, if_pos (by
        rw [List.length_map, List.length_range, List.length_replicate, hEq])]
      rw [List.length_map, List.length_range]
      congr 1
      apply List.map_congr_left
      intro i hi
      have hi2 : i < bf.nt := List.mem_range.mp hi
      rw [getD_map_range _ _ _ _ hi2, List.map_map]
      apply List.map_congr_left
      intro c _
      rw [getD_replicate _ _ _ _ (by omega : i < bf.numOutChans)]
      rfl
    simp +decide only [ReadFASTbinary, encode, hf, ReadM.run_bind, ReadM.run_pure,
      readHeader_encode bf hWFh, hnt, hch, hfid, hta, htb, Nat.cast_ofNat,
      FVal.num.injEq, if_true, if_false, ite_true, ite_false, List.nil_append,
      hpay, lt_self_iff_false, hfrd, liftE_run, hcoloff, hcolscl,
      hsub, hdivt, htime, hexp _ rfl, infoOf_hdrOf]
  · -- single-channel case: the column matrix has one row
    have hC1 : bf.numOutChans = 1 := by tauto
    have hNT1 : ¬ bf.nt = 1 := by
      intro h
      exact hEq (by rw [h, hC1])
    have hsub : bcastArr FVal.sub (reshape bf.nt bf.numOutChans bf.payload)
        (ScaleArr.col (List.replicate bf.numOutChans (FVal.num 0))) =
        .ok ((List.range bf.nt).map fun i => (List.range bf.numOutChans).map fun c =>
          bf.payload.getD (i * bf.numOutChans + c) (FVal.num 0) - FVal.num 0) := by
      rw [bcastArr, bcastCol,
        if_neg (by rw [reshape_length, List.length_replicate]; omega),
        if_neg (by rw [reshape_length]; exact hNT1),
        if_pos (by rw [List.length_replicate]; exact hC1)]
      rw [reshape, List.map_map]
      congr 1
      apply List.map_congr_left
      intro i _
      simp only [Function.comp_def]
      rw [List.map_map]
      apply List.map_congr_left
      intro c _
      rw [getD_replicate _ _ _ _ (by omega : 0 < bf.numOutChans)]
      rfl
    have hdivt : bcastArr FVal.div
        ((List.range bf.nt).map fun i => (List.range bf.numOutChans).map fun c =>
          bf.payload.getD (i * bf.numOutChans + c) (FVal.num 0) - FVal.num 0)
        (ScaleArr.col (List.replicate bf.numOutChans (FVal.num 1))) =
        .ok ((List.range bf.nt).map fun i => (List.range bf.numOutChans).map fun c =>
          (bf.payload.getD (i * bf.numOutChans + c) (FVal.num 0) - FVal.num 0) /
            FVal.num 1) := by
      rw [bcastArr, bcastCol,
        if_neg (by rw [List.length_map, List.length_range, List.length_replicate]; omega),
        if_neg (by rw [List.length_map, List.length_range]; exact hNT1),
        if_pos (by rw [List.length_replicate]; exact hC1)]
      rw [List.map_map]
      congr 1
      apply List.map_congr_left
      intro i _
      simp only [Function.comp_def]
      rw [List.map_map]
      apply List.map_congr_left
      intro c _
      rw [getD_replicate _ _ _ _ (by omega : 0 < bf.numOutChans)]
      rfl
    simp +decide only [ReadFASTbinary, encode, hf, ReadM.run_bind, ReadM.run_pure,
      readHeader_encode bf hWFh, hnt, hch, hfid, hta, htb, Nat.cast_ofNat,
      FVal.num.injEq, if_true, if_false, ite_true, ite_false, List.nil_append,
      hpay, lt_self_iff_false, hfrd, liftE_run, hcoloff, hcolscl,
      hsub, hdivt, htime, hexp _ rfl, infoOf_hdrOf]

theorem readUnb_f3_err (bf : BFile) (hWF : WF bf) (hf : bf.fileID = 3)
    (hBad : ¬ (bf.nt = bf.numOutChans ∨ bf.numOutChans = 1)) :
    ReadFASTbinary false (encode bf) = .error .broadcastError := by
  push_neg at hBad
  obtain ⟨hNE, hC1⟩ := hBad
  have hWFh := hWF.1
  obtain ⟨⟨hid, hscl, hoff, hnml, hnme, huml, hume⟩, hpt, hpay⟩ := hWF
  have hnt : (hdrOf bf).nt = bf.nt := rfl
  have hch : (hdrOf bf).numOutChans = bf.numOutChans := rfl
  have hfid : (hdrOf bf).fileID = FVal.num (bf.fileID : ℚ) := rfl
  have hta : (hdrOf bf).timeA = bf.timeA := rfl
  have htb : (hdrOf bf).timeB = bf.timeB := rfl
  have hcoloff : (hdrOf bf).colOff =
      ScaleArr.col (List.replicate bf.numOutChans (FVal.num 0)) := by
    rw [hdrOf]; simp [hf]
  have hcolscl : (hdrOf bf).colScl =
      ScaleArr.col (List.replicate bf.numOutChans (FVal.num 1)) := by
    rw [hdrOf]; simp [hf]
  have hfrd : ∀ w, fread (bf.nt * bf.numOutChans) w bf.payload = .ok (bf.payload, []) :=
    fun w => fread_all _ w _ hpay
  by_cases hNT1 : bf.nt = 1
  · -- one time step: the subtraction broadcasts to numOutChans rows, the
    -- concatenation then fails on the row-count mismatch
    have hsub : bcastArr FVal.sub (reshape bf.nt bf.numOutChans bf.payload)
        (ScaleArr.col (List.replicate bf.numOutChans (FVal.num 0))) =
        .ok ((List.range bf.numOutChans).map fun i =>
          ((reshape bf.nt bf.numOutChans bf.payload).getD 0 []).map fun x =>
            x - (List.replicate bf.numOutChans (FVal.num 0)).getD i FVal.nan) := by
      rw [bcastArr, bcastCol,
        if_neg (by rw [reshape_length, List.length_replicate]; omega),
        if_pos (by rw [reshape_length]; exact hNT1), List.length_replicate]
      rfl
    have hdivt : bcastArr FVal.div
        ((List.range bf.numOutChans).map fun i =>
          ((reshape bf.nt bf.numOutChans bf.payload).getD 0 []).map fun x =>
            x - (List.replicate bf.numOutChans (FVal.num 0)).getD i FVal.nan)
        (ScaleArr.col (List.replicate bf.numOutChans (FVal.num 1))) =
        .ok ((List.range bf.numOutChans).map fun i =>
          (((List.range bf.numOutChans).map fun i =>
            ((reshape bf.nt bf.numOutChans bf.payload).getD 0 []).map fun x =>
              x - (List.replicate bf.numOutChans (FVal.num 0)).getD i FVal.nan).getD i []).map
                fun x => x / (List.replicate bf.numOutChans (FVal.num 1)).getD i FVal.nan) := by
      rw [bcastArr, bcastCol, if_pos (by
        rw [List.length_map, List.length_range, List.length_replicate])]
      rw [List.length_map, List.length_range]
      rfl
    have hcon : concatTime
        ((List.range bf.nt).map fun (i : ℕ) => bf.timeA + bf.timeB * FVal.num (i : ℚ))
        ((List.range bf.numOutChans).map fun i =>
          (((List.range bf.numOutChans).map fun i =>
            ((reshape bf.nt bf.numOutChans bf.payload).getD 0 []).map fun x =>
              x - (List.replicate bf.numOutChans (FVal.num 0)).getD i FVal.nan).getD i []).map
                fun x => x / (List.replicate bf.numOutChans (FVal.num 1)).getD i FVal.nan) =
        .error .broadcastError := by
      rw [concatTime, if_neg (by
        rw [List.length_map, List.length_range, List.length_map, List.length_range, hNT1]
        omega)]
    simp +decide only [ReadFASTbinary, encode, hf, ReadM.run_bind, ReadM.run_pure,
      readHeader_encode bf hWFh, hnt, hch, hfid, hta, htb, Nat.cast_ofNat,
      FVal.num.injEq, if_true, if_false, ite_true, ite_false, List.nil_append,
      hpay, lt_self_iff_false, hfrd, liftE_run, hcoloff, hcolscl,
      hsub, hdivt, hcon]
  · -- no axis-0 compatibility at the subtraction already
    have hsub : bcastArr FVal.sub (reshape bf.nt bf.numOutChans bf.payload)
        (ScaleArr.col (List.replicate bf.numOutChans (FVal.num 0))) =
        .error .broadcastError := by
      rw [bcastArr, bcastCol,
        if_neg (by rw [reshape_length, List.length_replicate]; omega),
        if_neg (by rw [reshape_length]; exact hNT1),
        if_neg (by rw [List.length_replicate]; exact hC1)]
    simp +decide only [ReadFASTbinary, encode, hf, ReadM.run_bind, ReadM.run_pure,
      readHeader_encode bf hWFh, hnt, hch, hfid, hta, htb, Nat.cast_ofNat,
      FVal.num.injEq, if_true, if_false, ite_true, ite_false, List.nil_append,
      hpay, lt_self_iff_false, hfrd, liftE_run, hcoloff, hcolscl, hsub]

theorem readBuf_err_zeroCols (bf : BFile) (hWF : WF bf) (hC0 : bf.numOutChans = 0) :
    ReadFASTbinary true (encode bf) = .error .zeroDivision := by
  have hWFh := hWF.1
  obtain ⟨⟨hid, hscl, hoff, hnml, hnme, huml, hume⟩, hpt, hpay⟩ := hWF
  have hnt : (hdrOf bf).nt = bf.nt := rfl
  have hch : (hdrOf bf).numOutChans = bf.numOutChans := rfl
  have hfid : (hdrOf bf).fileID = FVal.num (bf.fileID : ℚ) := rfl
  rcases hid with hf | hf | hf | hf
  · have hptlen : (bf.packedTime.map fun q => FVal.num q).length = bf.nt := by
      rw [List.length_map]; exact hpt hf
    simp +decide only [ReadFASTbinary, encode, hf, ReadM.run_bind, ReadM.run_pure,
      readHeader_encode bf hWFh, hnt, hch, hfid, Nat.cast_one, FVal.num.injEq,
      if_true, if_false, ite_true, ite_false,
      fread_exact _ _ (bf.packedTime.map fun q => FVal.num q) _ hptlen,
      hptlen, lt_self_iff_false, hC0, freadRowOrderTableBuffered_zeroCols]
  all_goals
    simp +decide only [ReadFASTbinary, encode, hf, ReadM.run_bind, ReadM.run_pure,
      readHeader_encode bf hWFh, hnt, hch, hfid, Nat.cast_ofNat, FVal.num.injEq,
      if_true, if_false, ite_true, ite_false, List.nil_append,
      hC0, freadRowOrderTableBuffered_zeroCols]

theorem readBuf_err_bigCols (bf : BFile) (hWF : WF bf)
    (hBig : 163840 < bf.numOutChans) :
    ReadFASTbinary true (encode bf) = .error .zeroDivision := by
  have hWFh := hWF.1
  obtain ⟨⟨hid, hscl, hoff, hnml, hnme, huml, hume⟩, hpt, hpay⟩ := hWF
  have hnt : (hdrOf bf).nt = bf.nt := rfl
  have hch : (hdrOf bf).numOutChans = bf.numOutChans := rfl
  have hfid : (hdrOf bf).fileID = FVal.num (bf.fileID : ℚ) := rfl
  have hfr : ∀ w s, freadRowOrderTableBuffered (bf.nt * bf.numOutChans) w
      bf.numOutChans 1 s = .error .zeroDivision :=
    fun w s => freadRowOrderTableBuffered_bigCols _ w _ _ s hBig
  rcases hid with hf | hf | hf | hf
  · have hptlen : (bf.packedTime.map fun q => FVal.num q).length = bf.nt := by
      rw [List.length_map]; exact hpt hf
    simp +decide only [ReadFASTbinary, encode, hf, ReadM.run_bind, ReadM.run_pure,
      readHeader_encode bf hWFh, hnt, hch, hfid, Nat.cast_one, FVal.num.injEq,
      if_true, if_false, ite_true, ite_false,
      fread_exact _ _ (bf.packedTime.map fun q => FVal.num q) _ hptlen,
      hptlen, lt_self_iff_false, hfr]
  all_goals
    simp +decide only [ReadFASTbinary, encode, hf, ReadM.run_bind, ReadM.run_pure,
      readHeader_encode bf hWFh, hnt, hch, hfid, Nat.cast_ofNat, FVal.num.injEq,
      if_true, if_false, ite_true, ite_false, List.nil_append, hfr]

/-! ## Case collection: every way a read of a well-formed file can succeed -/

theorem read_ok_cases (bf : BFile) (b : Bool) (hWF : WF bf)
    (hok : isOkRead (ReadFASTbinary b (encode bf)) = true) :
    ReadFASTbinary b (encode bf) =
      .ok ((if b then expTableBuf bf else expTableUnb bf, expInfo bf), []) := by
  cases b
  · by_cases h3 : bf.fileID = 3
    · by_cases hOK3 : bf.nt = bf.numOutChans ∨ bf.numOutChans = 1
      · rw [readUnb_f3_ok bf hWF h3 hOK3]
        simp
      · rw [readUnb_f3_err bf hWF h3 hOK3] at hok
        simp [isOkRead] at hok
    · rw [readUnb_flat_ok bf hWF h3]
      simp
  · by_cases hC0 : bf.numOutChans = 0
    · rw [readBuf_err_zeroCols bf hWF hC0] at hok
      simp [isOkRead] at hok
    · by_cases hBig : 163840 < bf.numOutChans
      · rw [readBuf_err_bigCols bf hWF hBig] at hok
        simp [isOkRead] at hok
      · rw [readBuf_ok bf hWF (by omega) (by omega)]
        simp

theorem expTableBuf_entry0 (bf : BFile) (i : ℕ) (hi : i < bf.nt) :
    ((expTableBuf bf).getD i []).getD 0 FVal.nan = timeAt bf i := by
  rw [expTableBuf, getD_map_range _ _ _ _ hi]
  rfl

theorem expTableUnb_entry0 (bf : BFile) (i : ℕ) (hi : i < bf.nt) :
    ((expTableUnb bf).getD i []).getD 0 FVal.nan = timeAt bf i := by
  rw [expTableUnb, getD_map_range _ _ _ _ hi]
  rfl

theorem expTableBuf_entry (bf : BFile) (i c : ℕ) (hi : i < bf.nt)
    (hc : c < bf.numOutChans) :
    ((expTableBuf bf).getD i []).getD (c + 1) FVal.nan = dequantBuf bf i c := by
  rw [expTableBuf, getD_map_range _ _ _ _ hi]
  show ((List.range bf.numOutChans).map fun c => dequantBuf bf i c).getD c FVal.nan = _
  rw [getD_map_range _ _ _ _ hc]

theorem expTableUnb_entry (bf : BFile) (i c : ℕ) (hi : i < bf.nt)
    (hc : c < bf.numOutChans) :
    ((expTableUnb bf).getD i []).getD (c + 1) FVal.nan = dequantUnb bf i c := by
  rw [expTableUnb, getD_map_range _ _ _ _ hi]
  show ((List.range bf.numOutChans).map fun c => dequantUnb bf i c).getD c FVal.nan = _
  rw [getD_map_range _ _ _ _ hc]

/-! ## Truncated payloads -/

theorem bufLoop_short (n nCols BufferSize nOff : ℕ)
    (hB : 0 < BufferSize) (hBd : nCols ∣ BufferSize) :
    ∀ (fuel m nIntRead nLinesRead : ℕ) (data : Table) (s : TokStream),
      nIntRead + m = n → nCols ∣ m → m < fuel → s.length < m →
      nLinesRead + m / nCols ≤ data.length →
      bufLoop n nCols BufferSize nOff fuel nIntRead nLinesRead data s =
        .error .typeError := by
  intro fuel
  induction fuel with
  | zero => intro m _ _ _ _ _ _ hfuel _ _; omega
  | succ fuel ih =>
      intro m nIntRead nLinesRead data s hsum hdvd hfuel hs hrows
      have hm : 0 < m := by omega
      have hguard : nIntRead < n := by omega
      rw [bufLoop, if_pos hguard]
      set k := min (n - nIntRead) BufferSize with hk
      have hkm : k = min m BufferSize := by rw [hk]; congr 1; omega
      have hkpos : 0 < k := by rw [hkm]; exact lt_min (by omega) hB
      have hkdvd : nCols ∣ k := by
        rw [hkm]
        rcases Nat.le_total m BufferSize with h | h
        · rwa [min_eq_left h]
        · rwa [min_eq_right h]
      have hkle : k ≤ m := by rw [hkm]; exact min_le_left _ _
      by_cases hcut : s.length < k
      · rw [if_pos hcut]
      · rw [if_neg hcut]
        have hmod : ¬ ¬ k % nCols = 0 := by
          simp only [not_not]
          omega
        rw [if_neg hmod]
        have hdivle : k / nCols ≤ m / nCols := Nat.div_le_div_right hkle
        have hbound : ¬ (data.length < nLinesRead + k / nCols) := by omega
        rw [if_neg hbound]
        have hkmlt : k < m := by omega
        have hdivsplit : k / nCols + (m - k) / nCols = m / nCols := by
          have hmk : k + (m - k) = m := by omega
          have h2 := Nat.add_div_of_dvd_right (b := m - k) hkdvd
          rw [hmk] at h2
          exact h2.symm
        have hlen2 :
            (writeRows nCols nOff (k / nCols) nLinesRead data (s.take k)).length =
              data.length := writeRows_length _ _ _ _ _ _
        exact ih (m - k) (nIntRead + k) (nLinesRead + k / nCols) _ (s.drop k)
          (by omega) (Nat.dvd_sub' hdvd hkdvd) (by omega)
          (by rw [List.length_drop]; omega) (by rw [hlen2]; omega)

theorem freadRowOrderTableBuffered_short (n w nCols nOff : ℕ) (hC : 0 < nCols)
    (hMax : nCols ≤ 163840) (hdvd : nCols ∣ n) (s : TokStream) (hs : s.length < n) :
    freadRowOrderTableBuffered n w nCols nOff s = .error .typeError := by
  have hq : 0 < 163840 / nCols := Nat.div_pos hMax hC
  have hB : 0 < nCols * (163840 / nCols) := Nat.mul_pos hC hq
  rw [freadRowOrderTableBuffered]
  rw [if_neg (by omega)]
  simp only []
  rw [if_neg (by omega)]
  rw [bufLoop_short n nCols (nCols * (163840 / nCols)) nOff hB (Dvd.intro _ rfl)
    (n + 1) n 0 0 _ s (by omega) hdvd (by omega) hs (by simp)]

theorem readTrunc_unb (bf : BFile) (hWFh : WFheader bf)
    (hpt : bf.fileID = 1 → bf.packedTime.length = bf.nt)
    (hshort : bf.payload.length < bf.nt * bf.numOutChans) :
    ReadFASTbinary false (encode bf) =
      .error (.structError (bf.nt * bf.numOutChans) bf.payload.length) := by
  have hWFc := hWFh
  obtain ⟨hid, hscl, hoff, hnml, hnme, huml, hume⟩ := hWFc
  have hnt : (hdrOf bf).nt = bf.nt := rfl
  have hch : (hdrOf bf).numOutChans = bf.numOutChans := rfl
  have hfid : (hdrOf bf).fileID = FVal.num (bf.fileID : ℚ) := rfl
  have hfrd : ∀ w, fread (bf.nt * bf.numOutChans) w bf.payload =
      .error (.structError (bf.nt * bf.numOutChans) bf.payload.length) :=
    fun w => fread_short _ _ _ hshort
  rcases hid with hf | hf | hf | hf
  · have hptlen : (bf.packedTime.map fun q => FVal.num q).length = bf.nt := by
      rw [List.length_map]; exact hpt hf
    simp +decide only [ReadFASTbinary, encode, hf, ReadM.run_bind, ReadM.run_pure,
      readHeader_encode bf hWFh, hnt, hch, hfid, Nat.cast_one, FVal.num.injEq,
      if_true, if_false, ite_true, ite_false,
      fread_exact _ _ (bf.packedTime.map fun q => FVal.num q) _ hptlen,
      hptlen, lt_self_iff_false, hfrd]
  all_goals
    simp +decide only [ReadFASTbinary, encode, hf, ReadM.run_bind, ReadM.run_pure,
      readHeader_encode bf hWFh, hnt, hch, hfid, Nat.cast_ofNat, FVal.num.injEq,
      if_true, if_false, ite_true, ite_false, List.nil_append, hfrd]

theorem readTrunc_buf (bf : BFile) (hWFh : WFheader bf)
    (hpt : bf.fileID = 1 → bf.packedTime.length = bf.nt)
    (hC : 0 < bf.numOutChans) (hMax : bf.numOutChans ≤ 163840)
    (hshort : bf.payload.length < bf.nt * bf.numOutChans) :
    ReadFASTbinary true (encode bf) = .error .typeError := by
  have hWFc := hWFh
  obtain ⟨hid, hscl, hoff, hnml, hnme, huml, hume⟩ := hWFc
  have hnt : (hdrOf bf).nt = bf.nt := rfl
  have hch : (hdrOf bf).numOutChans = bf.numOutChans := rfl
  have hfid : (hdrOf bf).fileID = FVal.num (bf.fileID : ℚ) := rfl
  have hfr : ∀ w, freadRowOrderTableBuffered (bf.nt * bf.numOutChans) w
      bf.numOutChans 1 bf.payload = .error .typeError :=
    fun w => freadRowOrderTableBuffered_short _ w _ 1 hC hMax (dvd_mul_left _ _)
      bf.payload hshort
  rcases hid with hf | hf | hf | hf
  · have hptlen : (bf.packedTime.map fun q => FVal.num q).length = bf.nt := by
      rw [List.length_map]; exact hpt hf
    simp +decide only [ReadFASTbinary, encode, hf, ReadM.run_bind, ReadM.run_pure,
      readHeader_encode bf hWFh, hnt, hch, hfid, Nat.cast_one, FVal.num.injEq,
      if_true, if_false, ite_true, ite_false,
      fread_exact _ _ (bf.packedTime.map fun q => FVal.num q) _ hptlen,
      hptlen, lt_self_iff_false, hfr]
  all_goals
    simp +decide only [ReadFASTbinary, encode, hf, ReadM.run_bind, ReadM.run_pure,
      readHeader_encode bf hWFh, hnt, hch, hfid, Nat.cast_ofNat, FVal.num.injEq,
      if_true, if_false, ite_true, ite_false, List.nil_append, hfr]

theorem readPT_short (bf : BFile) (hWFh : WFheader bf) (hf : bf.fileID = 1)
    (hpl : bf.payload = []) (hshort : bf.packedTime.length < bf.nt) (b : Bool) :
    ReadFASTbinary b (encode bf) =
      .error (.structError bf.nt bf.packedTime.length) := by
  have hnt : (hdrOf bf).nt = bf.nt := rfl
  have hch : (hdrOf bf).numOutChans = bf.numOutChans := rfl
  have hfid : (hdrOf bf).fileID = FVal.num (bf.fileID : ℚ) := rfl
  have hfrp : ∀ w, fread bf.nt w (bf.packedTime.map fun q => FVal.num q) =
      .error (.structError bf.nt bf.packedTime.length) := by
    intro w
    have := fread_short bf.nt w (bf.packedTime.map fun q => FVal.num q)
      (by rw [List.length_map]; exact hshort)
    rwa [List.length_map] at this
  simp +decide only [ReadFASTbinary, encode, hf, hpl, ReadM.run_bind, ReadM.run_pure,
    readHeader_encode bf hWFh, hnt, hch, hfid, Nat.cast_one, FVal.num.injEq,
    if_true, if_false, ite_true, ite_false, List.append_nil, hfrp]

/-! ## Computation rules for FVal arithmetic -/

theorem FVal.num_add_num (a b : ℚ) : FVal.num a + FVal.num b = FVal.num (a + b) := rfl

theorem FVal.num_sub_num (a b : ℚ) : FVal.num a - FVal.num b = FVal.num (a - b) := rfl

theorem FVal.num_mul_num (a b : ℚ) : FVal.num a * FVal.num b = FVal.num (a * b) := rfl

theorem FVal.num_div_num (a b : ℚ) (h : b ≠ 0) :
    FVal.num a / FVal.num b = FVal.num (a / b) := by
  show FVal.div _ _ = _
  simp [FVal.div, h]

theorem FVal.sub_zero_div_one (v : FVal) : (v - FVal.num 0) / FVal.num 1 = v := by
  cases v
  · rfl
  · show FVal.div (FVal.sub _ _) _ = _
    simp [FVal.sub, FVal.div]

/-! ## Concrete files used by counterexamples and witnesses -/

/-- "  Time    " as a 10-byte name field. -/
def nm10 : List ℕ := [32, 32, 84, 105, 109, 101, 32, 32, 32, 32]

/-- "(m/s)     " as a 10-byte unit field. -/
def un10 : List ℕ := [40, 109, 47, 115, 41, 32, 32, 32, 32, 32]

/-- Format-2 file, one channel, one step, NaN-sentinel scale and offset,
raw stored value 5. -/
def bfC1 : BFile :=
  ⟨2, 0, 1, 1, FVal.num 0, FVal.num (1/80), [FVal.nan], [FVal.nan],
    [], [nm10, nm10], [un10, un10], [], [FVal.num 5]⟩

/-- Claim C1: for every parseable file, `read(path, buffered=true)` and
`read(path, buffered=false)` return identical Tables and identical
Metadata, for all four format variants, including files with
NaN-sentinel scale/offset channels and format 3.  The code violates
this: on the NaN-sentinel file `bfC1` the buffered mode zero-fills the
channel while the unbuffered mode computes with the NaN scale/offset
and returns a NaN column, with identical metadata.  (The format-3
variant additionally diverges, see the claim C7 theorem.) -/
theorem C1_mode_divergence :
    ReadFASTbinary true (encode bfC1) = .ok ((expTableBuf bfC1, expInfo bfC1), []) ∧
    ReadFASTbinary false (encode bfC1) = .ok ((expTableUnb bfC1, expInfo bfC1), []) ∧
    expTableBuf bfC1 ≠ expTableUnb bfC1 := by
  refine ⟨readBuf_ok bfC1 (by decide) (by decide) (by decide),
    readUnb_flat_ok bfC1 (by decide) (by decide), fun h => ?_⟩
  have h01 := congrArg (fun T : Table => (T.getD 0 []).getD 1 FVal.nan) h
  simp only [] at h01
  rw [expTableBuf_entry bfC1 0 0 (by decide) (by decide),
    expTableUnb_entry bfC1 0 0 (by decide) (by decide)] at h01
  rw [show dequantBuf bfC1 0 0 = FVal.num 0 by decide,
    show dequantUnb bfC1 0 0 = FVal.nan by decide] at h01
  exact absurd h01 (by decide)

/-- Format-2 file, one channel, one step, NaN-sentinel scale and offset,
raw stored value 7. -/
def bfC2 : BFile :=
  ⟨2, 0, 1, 1, FVal.num 0, FVal.num (1/80), [FVal.nan], [FVal.nan],
    [], [nm10, nm10], [un10, un10], [], [FVal.num 7]⟩

/-- Claim C2, as stated, is false: in the unbuffered mode a NaN-NaN
sentinel channel is NOT zero-filled — the read succeeds and the column
holds NaN, not zero. -/
theorem C2_counterexample :
    isOkRead (ReadFASTbinary false (encode bfC2)) = true ∧
    entryOf (ReadFASTbinary false (encode bfC2)) 0 1 = FVal.nan ∧
    FVal.nan ≠ FVal.num 0 := by
  have hr := readUnb_flat_ok bfC2 (by decide) (by decide)
  refine ⟨by rw [hr]; rfl, ?_, by decide⟩
  rw [hr]
  simp only [entryOf, tableOf]
  rw [expTableUnb_entry bfC2 0 0 (by decide) (by decide)]
  decide

/-- Claim C2 (amended): for every channel whose scale and offset are
both the NaN sentinel, the reconstructed column is all-zero in the
BUFFERED read mode, regardless of the raw stored payload values (in the
unbuffered mode the column is NaN instead). -/
theorem C2_sentinel_zeroes_buffered (bf : BFile) (i c : ℕ) (hWF : WF bf)
    (hok : isOkRead (ReadFASTbinary true (encode bf)) = true)
    (hc : c < bf.numOutChans)
    (hs : (sclAt bf c).isNan = true ∧ (offAt bf c).isNan = true)
    (hi : i < bf.nt) :
    entryOf (ReadFASTbinary true (encode bf)) i (c + 1) = FVal.num 0 := by
  rw [read_ok_cases bf true hWF hok]
  simp only [entryOf, tableOf, if_true, ite_true]
  rw [expTableBuf_entry bf i c hi hc, dequantBuf,
    if_pos (by rw [hs.1, hs.2]; rfl)]

/-- Buffered-mode witness file for claim C2: sentinel channel with raw
value 9. -/
def bfC2w : BFile :=
  ⟨2, 0, 1, 1, FVal.num 0, FVal.num (1/80), [FVal.nan], [FVal.nan],
    [], [nm10, nm10], [un10, un10], [], [FVal.num 9]⟩

theorem C2_witness :
    entryOf (ReadFASTbinary true (encode bfC2w)) 0 1 = FVal.num 0 :=
  C2_sentinel_zeroes_buffered bfC2w 0 0 (by decide)
    (by rw [readBuf_ok bfC2w (by decide) (by decide) (by decide)]; rfl)
    (by decide) ⟨by decide, by decide⟩ (by decide)

/-- Format-2 file declaring two steps of one channel but storing only
one payload value. -/
def bfC3a : BFile :=
  ⟨2, 0, 1, 2, FVal.num 0, FVal.num (1/80), [FVal.num 2], [FVal.num 100],
    [], [nm10, nm10], [un10, un10], [], [FVal.num 5]⟩

/-- Format-1 file declaring two steps but storing only one packed-time
value (and no payload). -/
def bfC3b : BFile :=
  ⟨1, 0, 1, 2, FVal.num 1, FVal.num 0, [FVal.num 2], [FVal.num 100],
    [], [nm10, nm10], [un10, un10], [0], []⟩

/-- Claim C3: a truncated payload always fails (no silently short table
is ever returned), but the error does NOT carry the read-vs-expected
counts the claim requires.  In the buffered mode the counting message
of line 57 is never produced because its own percent-formatting raises
`TypeError`; in the unbuffered mode (and for a short packed-time column
of format 1) the failure is the bare `struct.error` of `fread` and the
count-reporting checks at lines 121-122 and 137-139 are unreachable. -/
theorem C3_truncation_behaviour :
    ReadFASTbinary true (encode bfC3a) = .error .typeError ∧
    ReadFASTbinary false (encode bfC3a) = .error (.structError 2 1) ∧
    ReadFASTbinary true (encode bfC3b) = .error (.structError 2 1) ∧
    ReadFASTbinary false (encode bfC3b) = .error (.structError 2 1) := by
  refine ⟨readTrunc_buf bfC3a (by decide) (by decide) (by decide) (by decide) (by decide),
    ?_, ?_, ?_⟩
  · have h := readTrunc_unb bfC3a (by decide) (by decide) (by decide)
    simpa using h
  · have h := readPT_short bfC3b (by decide) (by decide) (by decide) (by decide) true
    simpa using h
  · have h := readPT_short bfC3b (by decide) (by decide) (by decide) (by decide) false
    simpa using h

/-- Claim C4: a first token outside {1, 2, 3, 4} makes the read fail
with the unsupported-format error, in both modes, independently of
everything after the format tag (so no further bytes influence or are
needed for the outcome), and no partial result is returned. -/
theorem C4_unsupported_format (z : ℤ) (rest : TokStream) (b : Bool)
    (_hlo : -32768 ≤ z) (_hhi : z ≤ 32767)
    (hz1 : z ≠ 1) (hz2 : z ≠ 2) (hz3 : z ≠ 3) (hz4 : z ≠ 4) :
    ReadFASTbinary b (FVal.num (z : ℚ) :: rest) =
      .error (.unsupported (FVal.num (z : ℚ))) := by
  have hcond : ¬ (FVal.num (z : ℚ) = FVal.num 1 ∨ FVal.num (z : ℚ) = FVal.num 2 ∨
      FVal.num (z : ℚ) = FVal.num 3 ∨ FVal.num (z : ℚ) = FVal.num 4) := by
    rintro (h | h | h | h) <;> simp only [FVal.num.injEq] at h
    · exact hz1 (by exact_mod_cast h)
    · exact hz2 (by exact_mod_cast h)
    · exact hz3 (by exact_mod_cast h)
    · exact hz4 (by exact_mod_cast h)
  simp only [ReadFASTbinary, ReadM.run_bind, readHeader, fread_cons,
    List.getD_cons_zero, if_neg hcond, throwE]

theorem C4_witness :
    ReadFASTbinary true [FVal.num ((7 : ℤ) : ℚ)] =
      .error (.unsupported (FVal.num ((7 : ℤ) : ℚ))) :=
  C4_unsupported_format 7 [] true (by decide) (by decide) (by decide)
    (by decide) (by decide) (by decide)

/-- Claim C5: for every successfully read well-formed file, column 0 of
the output table is the reconstructed time: packed dequantization
`(packed_time[i] - time_offset) / time_scale` for format 1 and
`start + increment * i` for formats 2, 3 and 4, in both read modes. -/
theorem C5_time_column (bf : BFile) (b : Bool) (i : ℕ) (hWF : WF bf)
    (hok : isOkRead (ReadFASTbinary b (encode bf)) = true) (hi : i < bf.nt) :
    entryOf (ReadFASTbinary b (encode bf)) i 0 = timeAt bf i := by
  rw [read_ok_cases bf b hWF hok]
  simp only [entryOf, tableOf]
  cases b
  · simp +decide only [if_true, if_false, ite_true, ite_false]
    rw [expTableUnb_entry0 bf i hi]
  · simp +decide only [if_true, if_false, ite_true, ite_false]
    rw [expTableBuf_entry0 bf i hi]

/-- Format-2 file with the concrete time parameters of the claim:
start 0.0, increment 0.0125, five steps. -/
def bfC5 : BFile :=
  ⟨2, 0, 1, 5, FVal.num 0, FVal.num (1/80), [FVal.num 1], [FVal.num 0],
    [], [nm10, nm10], [un10, un10], [], List.replicate 5 (FVal.num 0)⟩

theorem C5_witness :
    (entryOf (ReadFASTbinary true (encode bfC5)) 0 0 = timeAt bfC5 0 ∧
      timeAt bfC5 0 = FVal.num 0) ∧
    (entryOf (ReadFASTbinary true (encode bfC5)) 1 0 = timeAt bfC5 1 ∧
      timeAt bfC5 1 = FVal.num (1/80)) ∧
    (entryOf (ReadFASTbinary true (encode bfC5)) 2 0 = timeAt bfC5 2 ∧
      timeAt bfC5 2 = FVal.num (1/40)) ∧
    (entryOf (ReadFASTbinary true (encode bfC5)) 3 0 = timeAt bfC5 3 ∧
      timeAt bfC5 3 = FVal.num (3/80)) ∧
    (entryOf (ReadFASTbinary true (encode bfC5)) 4 0 = timeAt bfC5 4 ∧
      timeAt bfC5 4 = FVal.num (1/20)) := by
  have hok : isOkRead (ReadFASTbinary true (encode bfC5)) = true := by
    rw [readBuf_ok bfC5 (by decide) (by decide) (by decide)]; rfl
  have htv : ∀ i : ℕ, timeAt bfC5 i = FVal.num (i / 80) := by
    intro i
    rw [timeAt, if_neg (by decide)]
    show FVal.num 0 + FVal.num (1/80) * FVal.num (i : ℚ) = _
    rw [FVal.num_mul_num, FVal.num_add_num]
    congr 1
    ring
  refine ⟨⟨C5_time_column bfC5 true 0 (by decide) hok (by decide), ?_⟩,
    ⟨C5_time_column bfC5 true 1 (by decide) hok (by decide), ?_⟩,
    ⟨C5_time_column bfC5 true 2 (by decide) hok (by decide), ?_⟩,
    ⟨C5_time_column bfC5 true 3 (by decide) hok (by decide), ?_⟩,
    ⟨C5_time_column bfC5 true 4 (by decide) hok (by decide), ?_⟩⟩ <;>
  · rw [htv]
    congr 1 <;> norm_num

/-- Claim C6: for every successfully read well-formed file and every
channel whose scale/offset pair is not the NaN-NaN sentinel, the
dequantized entry equals `(stored - offset) / scale`, in both modes. -/
theorem C6_dequantization (bf : BFile) (b : Bool) (i c : ℕ) (hWF : WF bf)
    (hok : isOkRead (ReadFASTbinary b (encode bf)) = true)
    (hc : c < bf.numOutChans)
    (hns : ¬ ((sclAt bf c).isNan = true ∧ (offAt bf c).isNan = true))
    (hi : i < bf.nt) :
    entryOf (ReadFASTbinary b (encode bf)) i (c + 1) =
      (rawAt bf i c - offAt bf c) / sclAt bf c := by
  rw [read_ok_cases bf b hWF hok]
  simp only [entryOf, tableOf]
  cases b
  · simp +decide only [if_true, if_false, ite_true, ite_false]
    rw [expTableUnb_entry bf i c hi hc]
    rfl
  · simp +decide only [if_true, if_false, ite_true, ite_false]
    rw [expTableBuf_entry bf i c hi hc, dequantBuf,
      if_neg (by rw [Bool.and_eq_true]; exact hns)]

/-- Format-1 file with the concrete dequantization data of the claim:
raw stored value 1000, scale 2.0, offset 100.0. -/
def bfC6 : BFile :=
  ⟨1, 0, 1, 1, FVal.num 1, FVal.num 0, [FVal.num 2], [FVal.num 100],
    [], [nm10, nm10], [un10, un10], [0], [FVal.num 1000]⟩

theorem C6_witness :
    entryOf (ReadFASTbinary false (encode bfC6)) 0 1 = FVal.num 450 := by
  have hok : isOkRead (ReadFASTbinary false (encode bfC6)) = true := by
    rw [readUnb_flat_ok bfC6 (by decide) (by decide)]; rfl
  rw [C6_dequantization bfC6 false 0 0 (by decide) hok (by decide) (by decide)
    (by decide)]
  rw [show rawAt bfC6 0 0 = FVal.num 1000 by decide,
    show offAt bfC6 0 = FVal.num 100 by decide,
    show sclAt bfC6 0 = FVal.num 2 by decide]
  rw [FVal.num_sub_num, FVal.num_div_num _ _ (by norm_num)]
  congr 1
  norm_num

/-- Format-3 file with two steps and three channels, payload values
1 to 6 stored as floats. -/
def bfC7 : BFile :=
  ⟨3, 0, 3, 2, FVal.num 0, FVal.num 1,
    [FVal.num 1, FVal.num 1, FVal.num 1], [FVal.num 0, FVal.num 0, FVal.num 0], [],
    [nm10, nm10, nm10, nm10], [un10, un10, un10, un10], [],
    [FVal.num 1, FVal.num 2, FVal.num 3, FVal.num 4, FVal.num 5, FVal.num 6]⟩

/-- Claim C7: for format 3 the reader synthesizes scale 1 and offset 0
(so the buffered mode returns exactly the stored float values), but in
the UNBUFFERED mode the read of this well-formed file fails with a
NumPy broadcast error, because the synthesized scale/offset arrays have
shape `(channel_count, 1)` and `step_count = 2` is incompatible with
`channel_count = 3` on axis 0.  So the claim's "holds in both modes"
part is false. -/
theorem C7_format3_modes :
    ReadFASTbinary true (encode bfC7) = .ok ((expTableBuf bfC7, expInfo bfC7), []) ∧
    (∀ i c : ℕ, i < bfC7.nt → c < bfC7.numOutChans →
      dequantBuf bfC7 i c = rawAt bfC7 i c) ∧
    ReadFASTbinary false (encode bfC7) = .error .broadcastError := by
  refine ⟨readBuf_ok bfC7 (by decide) (by decide) (by decide), ?_,
    readUnb_f3_err bfC7 (by decide) (by decide) (by decide)⟩
  intro i c _ _
  have hscl : sclAt bfC7 c = FVal.num 1 := by rw [sclAt, if_pos (by decide)]
  have hoff : offAt bfC7 c = FVal.num 0 := by rw [offAt, if_pos (by decide)]
  rw [dequantBuf, hscl, hoff, if_neg (by decide)]
  exact FVal.sub_zero_div_one _

/-- Claim C8: for every successfully read well-formed file, the
returned channel names and units each have `channel_count + 1` entries
in file order; each name is the fixed-width byte field trimmed of
surrounding whitespace, and each unit is additionally stripped of one
leading and one trailing character after trimming. -/
theorem C8_names_units (bf : BFile) (b : Bool) (hWF : WF bf)
    (hok : isOkRead (ReadFASTbinary b (encode bf)) = true) :
    (infoOfR (ReadFASTbinary b (encode bf))).attribute_names =
      bf.chanNames.map pyStrip ∧
    (infoOfR (ReadFASTbinary b (encode bf))).attribute_units =
      bf.chanUnits.map unitPost ∧
    (infoOfR (ReadFASTbinary b (encode bf))).attribute_names.length =
      bf.numOutChans + 1 ∧
    (infoOfR (ReadFASTbinary b (encode bf))).attribute_units.length =
      bf.numOutChans + 1 := by
  obtain ⟨⟨hid, hscl, hoff, hnml, hnme, huml, hume⟩, hpt, hpay⟩ := hWF
  rw [read_ok_cases bf b ⟨⟨hid, hscl, hoff, hnml, hnme, huml, hume⟩, hpt, hpay⟩ hok]
  simp only [infoOfR, expInfo]
  refine ⟨trivial, trivial, ?_, ?_⟩
  · rw [List.length_map, hnml]
  · rw [List.length_map, huml]

/-- Format-4 file with 3-byte name and unit fields. -/
def bfC8 : BFile :=
  ⟨4, 3, 1, 1, FVal.num 0, FVal.num 1, [FVal.num 1], [FVal.num 0],
    [72, 105], [[32, 65, 32], [66, 67, 32]], [[40, 109, 41], [40, 115, 41]],
    [], [FVal.num 5]⟩

theorem C8_witness :
    (infoOfR (ReadFASTbinary false (encode bfC8))).attribute_names =
      [[65], [66, 67]] ∧
    (infoOfR (ReadFASTbinary false (encode bfC8))).attribute_units =
      [[109], [115]] := by
  have hok : isOkRead (ReadFASTbinary false (encode bfC8)) = true := by
    rw [readUnb_flat_ok bfC8 (by decide) (by decide)]; rfl
  have h := C8_names_units bfC8 false (by decide) hok
  refine ⟨?_, ?_⟩
  · rw [h.1]; decide
  · rw [h.2.1]; decide

/-- Claim C9, as stated, claims the buffered read loop never terminates
when `channel_count > 163840`.  In fact the function terminates at once
on such inputs: `nLinesPerBuffer = int(163840/nCols)` is 0, so
`BufferSize = 0`, and the unused `nBuffer = int(n/BufferSize)` at line
41 raises `ZeroDivisionError` before the loop is ever entered.  Here
with `channel_count = 163841` the call returns that error. -/
theorem C9_counterexample :
    freadRowOrderTableBuffered 163841 2 163841 1 [] = .error .zeroDivision :=
  freadRowOrderTableBuffered_bigCols 163841 2 163841 1 [] (by norm_num)

/-- Claim C9 (amended): for every `channel_count > 163840` the buffered
table reader raises `ZeroDivisionError` when computing
`int(n/BufferSize)`, before entering the read loop, for every `n`,
element width, offset and input stream. -/
theorem C9_buffersize_zero_division (n w nCols nOff : ℕ) (s : TokStream)
    (h : 163840 < nCols) :
    freadRowOrderTableBuffered n w nCols nOff s = .error .zeroDivision :=
  freadRowOrderTableBuffered_bigCols n w nCols nOff s h

theorem C9_witness :
    freadRowOrderTableBuffered 5 2 200000 1 [FVal.num 1] = .error .zeroDivision :=
  C9_buffersize_zero_division 5 2 200000 1 [FVal.num 1] (by norm_num)

/-- Format-3 file with zero channels and one step. -/
def bfC10cex : BFile :=
  ⟨3, 0, 0, 1, FVal.num 0, FVal.num 1, [], [], [], [nm10], [un10], [], []⟩

/-- Claim C10, as stated, says the unbuffered mode succeeds on every
zero-channel file.  For the uncompressed format 3 with one step it
fails instead: the synthesized `(0, 1)`-shaped offset array cannot be
broadcast against the `(1, 0)` data and the concatenation row counts
mismatch, so the read raises the NumPy shape error. -/
theorem C10_counterexample :
    WF bfC10cex ∧ ReadFASTbinary false (encode bfC10cex) = .error .broadcastError :=
  ⟨by decide, readUnb_f3_err bfC10cex (by decide) (by decide) (by decide)⟩

/-- Claim C10 (amended): for a zero-channel file of format 1, 2 or 4,
the buffered mode fails with `ZeroDivisionError` (from
`int(n/nCols)` with `nCols = 0`) while the unbuffered mode succeeds and
returns the `step_count` by 1 table holding only the time column; for
format 3 the buffered mode fails the same way but the unbuffered mode
only succeeds when `step_count = 0`. -/
theorem C10_zero_channels (bf : BFile) (hWF : WF bf) (hC0 : bf.numOutChans = 0)
    (hfid : bf.fileID = 1 ∨ bf.fileID = 2 ∨ bf.fileID = 4) :
    ReadFASTbinary true (encode bf) = .error .zeroDivision ∧
    ReadFASTbinary false (encode bf) =
      .ok (((List.range bf.nt).map fun i => [timeAt bf i], expInfo bf), []) := by
  have h3 : bf.fileID ≠ 3 := by rcases hfid with h | h | h <;> omega
  refine ⟨readBuf_err_zeroCols bf hWF hC0, ?_⟩
  rw [readUnb_flat_ok bf hWF h3]
  have hT : expTableUnb bf = (List.range bf.nt).map fun i => [timeAt bf i] := by
    rw [expTableUnb, hC0]
    apply List.map_congr_left
    intro i _
    rfl
  rw [hT]

/-- Format-2 file with zero channels and two steps. -/
def bfC10w : BFile :=
  ⟨2, 0, 0, 2, FVal.num 0, FVal.num (1/2), [], [], [], [nm10], [un10], [], []⟩

theorem C10_witness :
    ReadFASTbinary true (encode bfC10w) = .error .zeroDivision ∧
    ReadFASTbinary false (encode bfC10w) =
      .ok (((List.range bfC10w.nt).map fun i => [timeAt bfC10w i],
        expInfo bfC10w), []) :=
  C10_zero_channels bfC10w (by decide) (by decide) (by decide)
